import Mathlib

/-!
Clementine `MergedProxyModel` (src/core/mergedproxymodel.cpp)

A shallow embedding of the merged proxy model: a proxy that splices
submodels into a root ("source") model at merge points and hands out
proxy indexes whose internal pointer is the address of a heap-allocated
`Mapping` record.

Conventions of the embedding

* A `QAbstractItemModel*` is a `ModelId` (an address); a possibly-NULL model
  pointer is an `Option ModelId`.
* A `QModelIndex` is the four fields Qt stores: row, column, internal
  pointer and model.  `QModelIndex()` is `QModelIndex.invalid`.
* The provider models (the source model and the submodels) are external
  code; their virtual functions are the fields of `Env`.
* `mappings_` is the container of live `Mapping` objects.  The address of a
  `Mapping` is its `ptr`; `new Mapping` is the allocator of `Env`, which
  returns an address different from the address of every live `Mapping`.
* `merge_points_` is a `QMap`, kept as a list of (key, value) pairs in
  ascending key order.
* Calls of `beginRemoveRows`, `endRemoveRows`, `beginInsertRows`,
  `endInsertRows`, `reset` and the emission of the `SubModelReset` signal are
  recorded, oldest first, in the `emitted` log of the proxy state.  Slots of
  the consumer connected to those signals are not part of the embedding.
* Dereferencing a NULL model pointer makes an accessor return `none`.
* A slot of the proxy takes the address of the model whose signal runs it
  (`sender()`); a sequence of slots or operations carries, for each step, the
  providers as they are at that step.
* Where the call an accessor forwards matters (`setData`, `mimeData`, the
  probe of `rowCount`), the forwarded calls are values: `setData_call`,
  `mimeData_call`, `rowCount_calls`, `columnCount_calls`.
* `int` is 32 bits wide; the one subtraction on an `int` (`count-1`) wraps.
-/

namespace Clementine

/-- Address of a `QAbstractItemModel`. -/
abbrev ModelId := Nat

/-- The fields of Qt's `QModelIndex`: `r`, `c`, `p`, `m`. -/
structure QModelIndex where
  row : Int
  column : Int
  internalPointer : Nat
  model : Option ModelId
deriving DecidableEq, Repr

namespace QModelIndex

/-- The default-constructed `QModelIndex()`. -/
def invalid : QModelIndex := ⟨-1, -1, 0, none⟩

/-- Qt: `(r >= 0) && (c >= 0) && (m != 0)`. -/
def isValid (i : QModelIndex) : Bool :=
  decide (0 ≤ i.row) && decide (0 ≤ i.column) && i.model.isSome

end QModelIndex

/-- The heap allocator behind `new Mapping`: given the addresses of the live
`Mapping` objects it returns the address of the new object, which is none of
them. -/
structure Allocator where
  fresh : List Nat → Nat
  fresh_not_mem : ∀ live : List Nat, fresh live ∉ live

/-- An allocator that hands out one more than the largest live address (so
addresses of deleted objects are used again). -/
def bumpAllocator : Allocator where
  fresh := fun live => live.foldr max 0 + 1
  fresh_not_mem := by
    intro live h
    have key : ∀ (l : List Nat) (x : Nat), x ∈ l → x ≤ l.foldr max 0 := by
      intro l
      induction l with
      | nil => intro x hx; cases hx
      | cons a t ih =>
        intro x hx
        rcases List.mem_cons.mp hx with rfl | hx
        · exact Nat.le_max_left _ _
        · exact Nat.le_trans (ih x hx) (Nat.le_max_right _ _)
    have h2 : live.foldr max 0 + 1 ∈ live := h
    have := key live _ h2
    omega

/-- The environment of the proxy: its own address (`this`), its source model
(`sourceModel()`), the allocator, and the virtual functions of the provider
models, each taking the address of the model it is called on. -/
structure Env where
  self : ModelId
  sourceModel : ModelId
  alloc : Allocator
  index : ModelId → Int → Int → QModelIndex → QModelIndex
  parent : ModelId → QModelIndex → QModelIndex
  rowCount : ModelId → QModelIndex → Int
  columnCount : ModelId → QModelIndex → Int
  hasChildren : ModelId → QModelIndex → Bool

/-- Qt's `QModelIndex::parent()`: `m ? m->parent(*this) : QModelIndex()`. -/
def QModelIndex.parent (env : Env) (i : QModelIndex) : QModelIndex :=
  match i.model with
  | none => QModelIndex.invalid
  | some m => env.parent m i

/-- A live `Mapping` object: its address and its `source_index` member. -/
structure Mapping where
  ptr : Nat
  source_index : QModelIndex
deriving DecidableEq, Repr

/-- What the proxy tells its consumer, in the order of the calls. -/
inductive Notification where
  | beginRemoveRows (parent : QModelIndex) (first last : Int)
  | endRemoveRows
  | beginInsertRows (parent : QModelIndex) (first last : Int)
  | endInsertRows
  | reset
  | SubModelReset (proxy_parent : QModelIndex) (submodel : ModelId)
deriving DecidableEq, Repr

/-- `std::numeric_limits<int>::max()`. -/
def INT_MAX : Int := 2147483647

/-- `std::numeric_limits<int>::min()`. -/
def INT_MIN : Int := -2147483648

/-- The value of a 32-bit `int` computation: the result modulo 2^32, taken
in the range `INT_MIN .. INT_MAX`. -/
def wrapInt (x : Int) : Int := (x + 2147483648) % 4294967296 - 2147483648

/-! ## The containers -/

namespace MappingContainer

/-- Index `tag_by_source`: `find(source_index)`. -/
def findBySource (c : List Mapping) (source_index : QModelIndex) : Option Mapping :=
  c.find? (fun mp => decide (mp.source_index = source_index))

/-- Index `tag_by_pointer`: `find(mapping)`. -/
def findByPointer (c : List Mapping) (p : Nat) : Option Mapping :=
  c.find? (fun mp => decide (mp.ptr = p))

/-- Insertion into the container: both indices are unique, so an element
whose source index or whose address is already present is not inserted. -/
def insert (c : List Mapping) (mp : Mapping) : List Mapping :=
  if c.any (fun x => decide (x.source_index = mp.source_index) || decide (x.ptr = mp.ptr))
  then c else c ++ [mp]

/-- The addresses of the live mappings. -/
def pointers (c : List Mapping) : List Nat := c.map Mapping.ptr

end MappingContainer

namespace QMap

/-- `QMap::insert(key, value)`: replaces the value of an existing key, and
keeps the keys in ascending order. -/
def insert : List (ModelId × QModelIndex) → ModelId → QModelIndex → List (ModelId × QModelIndex)
  | [], k, v => [(k, v)]
  | (k0, v0) :: rest, k, v =>
    if k < k0 then (k, v) :: (k0, v0) :: rest
    else if k = k0 then (k, v) :: rest
    else (k0, v0) :: insert rest k v

/-- `QMap::value(key)`: the value of the key, or a default-constructed value.
No key of the map is NULL. -/
def value (mp : List (ModelId × QModelIndex)) (key : Option ModelId) : QModelIndex :=
  match key with
  | none => QModelIndex.invalid
  | some k =>
    match mp.find? (fun e => decide (e.1 = k)) with
    | some e => e.2
    | none => QModelIndex.invalid

/-- `QMap::key(value)`: the first key, in ascending order, with that value,
or a default-constructed key (NULL). -/
def key (mp : List (ModelId × QModelIndex)) (v : QModelIndex) : Option ModelId :=
  (mp.find? (fun e => decide (e.2 = v))).map Prod.fst

/-- `QMap::keys()`. -/
def keys (mp : List (ModelId × QModelIndex)) : List ModelId := mp.map Prod.fst

end QMap

/-! ## The proxy -/

/-- The data members of `MergedProxyModel`, and the log of what it emitted. -/
structure MergedProxyModel where
  mappings_ : List Mapping
  merge_points_ : List (ModelId × QModelIndex)
  resetting_model_ : Option ModelId
  emitted : List Notification
deriving DecidableEq, Repr

namespace MergedProxyModel

/-- The proxy after its constructor: `resetting_model_(NULL)`. -/
def init : MergedProxyModel := ⟨[], [], none, []⟩

/-- Record one notification. -/
def emit (st : MergedProxyModel) (n : Notification) : MergedProxyModel :=
  { st with emitted := st.emitted ++ [n] }

/-- `QAbstractItemModel::createIndex(row, column, ptr)`. -/
def createIndex (env : Env) (row column : Int) (ptr : Nat) : QModelIndex :=
  ⟨row, column, ptr, some env.self⟩

/-- `MergedProxyModel::AddSubModel` (the signal connections are not state). -/
def AddSubModel (st : MergedProxyModel) (source_parent : QModelIndex) (submodel : ModelId) :
    MergedProxyModel :=
  { st with merge_points_ := QMap.insert st.merge_points_ submodel source_parent }

/-- `MergedProxyModel::mapToSource`. -/
def mapToSource (st : MergedProxyModel) (proxy_index : QModelIndex) : QModelIndex :=
  if !proxy_index.isValid then QModelIndex.invalid
  else
    match MappingContainer.findByPointer st.mappings_ proxy_index.internalPointer with
    | none => QModelIndex.invalid
    | some mapping =>
      if mapping.source_index.model = st.resetting_model_ then QModelIndex.invalid
      else mapping.source_index

/-- `MergedProxyModel::mapFromSource`; it is `const` in the source but adds a
mapping through a `const_cast`, so the proxy state is returned too. -/
def mapFromSource (env : Env) (st : MergedProxyModel) (source_index : QModelIndex) :
    QModelIndex × MergedProxyModel :=
  if !source_index.isValid then (QModelIndex.invalid, st)
  else if source_index.model = st.resetting_model_ then (QModelIndex.invalid, st)
  else
    match MappingContainer.findBySource st.mappings_ source_index with
    | some mapping =>
      (createIndex env source_index.row source_index.column mapping.ptr, st)
    | none =>
      let mapping : Mapping :=
        ⟨env.alloc.fresh (MappingContainer.pointers st.mappings_), source_index⟩
      (createIndex env source_index.row source_index.column mapping.ptr,
        { st with mappings_ := MappingContainer.insert st.mappings_ mapping })

/-- `MergedProxyModel::GetModel`. -/
def GetModel (env : Env) (st : MergedProxyModel) (source_index : QModelIndex) : Option ModelId :=
  let const_model := source_index.model
  if const_model = some env.sourceModel then some env.sourceModel
  else (QMap.keys st.merge_points_).find? (fun submodel => decide (some submodel = const_model))

/-- The first half of `MergedProxyModel::index`: the source index the
providers return (lines 204 to 216), `none` when `source_parent.model()` is
NULL and dereferenced. -/
def index_source (env : Env) (st : MergedProxyModel) (row column : Int) (parent : QModelIndex) :
    Option QModelIndex :=
  if !parent.isValid then
    some (env.index env.sourceModel row column QModelIndex.invalid)
  else
    let source_parent := mapToSource st parent
    match QMap.key st.merge_points_ source_parent with
    | some child_model => some (env.index child_model row column QModelIndex.invalid)
    | none =>
      match source_parent.model with
      | none => none
      | some m => some (env.index m row column source_parent)

/-- `MergedProxyModel::index`: `return mapFromSource(source_index)`. -/
def index (env : Env) (st : MergedProxyModel) (row column : Int) (parent : QModelIndex) :
    Option (QModelIndex × MergedProxyModel) :=
  (index_source env st row column parent).map (mapFromSource env st)

/-- `MergedProxyModel::parent`. -/
def parent (env : Env) (st : MergedProxyModel) (child : QModelIndex) :
    QModelIndex × MergedProxyModel :=
  let source_child := mapToSource st child
  if source_child.model = some env.sourceModel then
    mapFromSource env st (source_child.parent env)
  else if !(source_child.parent env).isValid then
    mapFromSource env st (QMap.value st.merge_points_ (GetModel env st source_child))
  else
    mapFromSource env st (source_child.parent env)

/-- `MergedProxyModel::rowCount`.  At a merge point the source model is
queried first and its answer dropped. -/
def rowCount (env : Env) (st : MergedProxyModel) (parent : QModelIndex) : Option Int :=
  if !parent.isValid then some (env.rowCount env.sourceModel QModelIndex.invalid)
  else
    let source_parent := mapToSource st parent
    match QMap.key st.merge_points_ source_parent with
    | some child_model =>
      match source_parent.model with
      | none => none
      | some _ => some (env.rowCount child_model QModelIndex.invalid)
    | none =>
      match source_parent.model with
      | none => none
      | some m => some (env.rowCount m source_parent)

/-- `MergedProxyModel::columnCount`. -/
def columnCount (env : Env) (st : MergedProxyModel) (parent : QModelIndex) : Option Int :=
  if !parent.isValid then some (env.columnCount env.sourceModel QModelIndex.invalid)
  else
    let source_parent := mapToSource st parent
    match QMap.key st.merge_points_ source_parent with
    | some child_model => some (env.columnCount child_model QModelIndex.invalid)
    | none =>
      match source_parent.model with
      | none => none
      | some m => some (env.columnCount m source_parent)

/-- `MergedProxyModel::hasChildren`; `||` evaluates its right operand only
when the left one is false. -/
def hasChildren (env : Env) (st : MergedProxyModel) (parent : QModelIndex) : Option Bool :=
  if !parent.isValid then some (env.hasChildren env.sourceModel QModelIndex.invalid)
  else
    let source_parent := mapToSource st parent
    match QMap.key st.merge_points_ source_parent with
    | some child_model =>
      if env.hasChildren child_model QModelIndex.invalid then some true
      else
        match source_parent.model with
        | none => none
        | some m => some (env.hasChildren m source_parent)
    | none =>
      match source_parent.model with
      | none => none
      | some m => some (env.hasChildren m source_parent)

/-- `MergedProxyModel::SourceModelReset`: every mapping is deleted, both
containers are cleared, and the proxy is reset. -/
def SourceModelReset (st : MergedProxyModel) : MergedProxyModel :=
  emit { st with mappings_ := [], merge_points_ := [] } Notification.reset

/-! ### `SubModelReset`, statement by statement -/

/-- Lines 107 and 108: `source_parent` and `proxy_parent`. -/
def SubModelReset_parent (env : Env) (st : MergedProxyModel) (submodel : ModelId) :
    QModelIndex × MergedProxyModel :=
  mapFromSource env st (QMap.value st.merge_points_ (some submodel))

/-- Line 111: `resetting_model_ = submodel`. -/
def SubModelReset_guard (st : MergedProxyModel) (submodel : ModelId) : MergedProxyModel :=
  { st with resetting_model_ := some submodel }

/-- Line 112: `beginRemoveRows(proxy_parent, 0, max() - 1)`. -/
def SubModelReset_beginRemove (st : MergedProxyModel) (proxy_parent : QModelIndex) :
    MergedProxyModel :=
  emit st (Notification.beginRemoveRows proxy_parent 0 (INT_MAX - 1))

/-- Line 113: `endRemoveRows()`. -/
def SubModelReset_endRemove (st : MergedProxyModel) : MergedProxyModel :=
  emit st Notification.endRemoveRows

/-- Line 114: `resetting_model_ = NULL`. -/
def SubModelReset_unguard (st : MergedProxyModel) : MergedProxyModel :=
  { st with resetting_model_ := none }

/-- Lines 117 to 128: every mapping whose source index belongs to the
submodel is deleted and erased. -/
def SubModelReset_purge (st : MergedProxyModel) (submodel : ModelId) : MergedProxyModel :=
  { st with mappings_ :=
      st.mappings_.filter (fun mp => !decide (mp.source_index.model = some submodel)) }

/-- Lines 131 to 135: the rows of the reset submodel are announced. -/
def SubModelReset_insert (env : Env) (st : MergedProxyModel) (submodel : ModelId)
    (proxy_parent : QModelIndex) : MergedProxyModel :=
  let count := env.rowCount submodel QModelIndex.invalid
  if count ≠ 0 then
    emit (emit st (Notification.beginInsertRows proxy_parent 0 (wrapInt (count - 1))))
      Notification.endInsertRows
  else st

/-- Line 137: `emit SubModelReset(proxy_parent, submodel)`. -/
def SubModelReset_signal (st : MergedProxyModel) (submodel : ModelId)
    (proxy_parent : QModelIndex) : MergedProxyModel :=
  emit st (Notification.SubModelReset proxy_parent submodel)

/-- The proxy state after each statement of `SubModelReset`, for the sender
`submodel`: after lines 108, 111, 112, 113, 114, 128, 135 and 137. -/
def SubModelReset_states (env : Env) (st : MergedProxyModel) (submodel : ModelId) :
    List MergedProxyModel :=
  let (proxy_parent, s108) := SubModelReset_parent env st submodel
  let s111 := SubModelReset_guard s108 submodel
  let s112 := SubModelReset_beginRemove s111 proxy_parent
  let s113 := SubModelReset_endRemove s112
  let s114 := SubModelReset_unguard s113
  let s128 := SubModelReset_purge s114 submodel
  let s135 := SubModelReset_insert env s128 submodel proxy_parent
  let s137 := SubModelReset_signal s135 submodel proxy_parent
  [s108, s111, s112, s113, s114, s128, s135, s137]

/-- `MergedProxyModel::SubModelReset`, for the sender `submodel`. -/
def SubModelReset (env : Env) (st : MergedProxyModel) (submodel : ModelId) : MergedProxyModel :=
  let (proxy_parent, s108) := SubModelReset_parent env st submodel
  SubModelReset_signal
    (SubModelReset_insert env
      (SubModelReset_purge
        (SubModelReset_unguard
          (SubModelReset_endRemove
            (SubModelReset_beginRemove (SubModelReset_guard s108 submodel) proxy_parent)))
        submodel)
      submodel proxy_parent)
    submodel proxy_parent

/-- The uniqueness the two containers keep by construction: no two live
mappings share an address or a source index, and the keys of the `QMap` are
strictly ascending. -/
def WF (st : MergedProxyModel) : Prop :=
  (st.mappings_.map Mapping.ptr).Nodup ∧
  (st.mappings_.map Mapping.source_index).Nodup ∧
  (QMap.keys st.merge_points_).Pairwise (fun a b => a < b)

instance (st : MergedProxyModel) : Decidable (WF st) := by
  unfold WF; infer_instance

end MergedProxyModel

/-! ## A concrete scenario

The source model (address 1) has one top-level item `A` in row 0, without
children of its own.  The submodel `M` (address 2) has three top-level rows
and is attached at `A`.  The proxy itself has address 100. -/

namespace Scenario

/-- The number of top-level rows of each provider. -/
def topRows (m : ModelId) : Int := if m = 1 then 1 else if m = 2 then 3 else 0

/-- Flat providers: only top-level items, in column 0. -/
def env : Env where
  self := 100
  sourceModel := 1
  alloc := bumpAllocator
  index := fun m row column parent =>
    if parent = QModelIndex.invalid ∧ 0 ≤ row ∧ row < topRows m ∧ column = 0
    then ⟨row, column, 0, some m⟩
    else QModelIndex.invalid
  parent := fun _ _ => QModelIndex.invalid
  rowCount := fun m parent => if parent.isValid then 0 else topRows m
  columnCount := fun _ _ => 1
  hasChildren := fun m parent => if parent.isValid then false else decide (0 < topRows m)

/-- The source index of the root item `A`. -/
def A : QModelIndex := ⟨0, 0, 0, some 1⟩

/-- The source index of row `r` of the submodel `M`. -/
def Mrow (r : Int) : QModelIndex := ⟨r, 0, 0, some 2⟩

/-- The proxy after `AddSubModel(A, M)`. -/
def attached : MergedProxyModel := MergedProxyModel.AddSubModel MergedProxyModel.init A 2

/-- The proxy after `AddSubModel(A, M)`, once `A` and row 1 of `M` have been
handed out: their mappings live at the addresses 1 and 2. -/
def exposed : MergedProxyModel :=
  (MergedProxyModel.mapFromSource env (MergedProxyModel.mapFromSource env attached A).2
    (Mrow 1)).2

/-- The proxy index of `A` in `exposed`. -/
def mergedA : QModelIndex := ⟨0, 0, 1, some 100⟩

/-- The proxy index of row 1 of `M` in `exposed`. -/
def mergedM1 : QModelIndex := ⟨1, 0, 2, some 100⟩

end Scenario

/-! ## The mutation relay -/

namespace MergedProxyModel

/-- `MergedProxyModel::GetActualSourceParent`. -/
def GetActualSourceParent (env : Env) (st : MergedProxyModel) (source_parent : QModelIndex)
    (model : ModelId) : QModelIndex :=
  if !source_parent.isValid && decide (model ≠ env.sourceModel) then
    QMap.value st.merge_points_ (some model)
  else source_parent

/-- `MergedProxyModel::RowsAboutToBeInserted`, called by the signal of the
model `sender`. -/
def RowsAboutToBeInserted (env : Env) (st : MergedProxyModel) (sender : ModelId)
    (source_parent : QModelIndex) (start end_ : Int) : MergedProxyModel :=
  emit (mapFromSource env st (GetActualSourceParent env st source_parent sender)).2
    (Notification.beginInsertRows
      (mapFromSource env st (GetActualSourceParent env st source_parent sender)).1 start end_)

/-- `MergedProxyModel::RowsInserted`: `endInsertRows()`. -/
def RowsInserted (st : MergedProxyModel) : MergedProxyModel :=
  emit st Notification.endInsertRows

/-- `MergedProxyModel::RowsAboutToBeRemoved`, called by the signal of the
model `sender`. -/
def RowsAboutToBeRemoved (env : Env) (st : MergedProxyModel) (sender : ModelId)
    (source_parent : QModelIndex) (start end_ : Int) : MergedProxyModel :=
  emit (mapFromSource env st (GetActualSourceParent env st source_parent sender)).2
    (Notification.beginRemoveRows
      (mapFromSource env st (GetActualSourceParent env st source_parent sender)).1 start end_)

/-- `MergedProxyModel::RowsRemoved`: `endRemoveRows()`. -/
def RowsRemoved (st : MergedProxyModel) : MergedProxyModel :=
  emit st Notification.endRemoveRows

end MergedProxyModel

/-- One invocation of a slot of the proxy by a signal of a provider model. -/
inductive SlotCall where
  | RowsAboutToBeInserted (sender : ModelId) (source_parent : QModelIndex) (start end_ : Int)
  | RowsInserted (sender : ModelId) (source_parent : QModelIndex) (start end_ : Int)
  | RowsAboutToBeRemoved (sender : ModelId) (source_parent : QModelIndex) (start end_ : Int)
  | RowsRemoved (sender : ModelId) (source_parent : QModelIndex) (start end_ : Int)
  | SubModelReset (sender : ModelId)
  | SourceModelReset
deriving DecidableEq, Repr

/-- The model whose signal runs the slot; `SourceModelReset` is connected to
the source model `root` only. -/
def SlotCall.sender (root : ModelId) : SlotCall → ModelId
  | SlotCall.RowsAboutToBeInserted sender _ _ _ => sender
  | SlotCall.RowsInserted sender _ _ _ => sender
  | SlotCall.RowsAboutToBeRemoved sender _ _ _ => sender
  | SlotCall.RowsRemoved sender _ _ _ => sender
  | SlotCall.SubModelReset sender => sender
  | SlotCall.SourceModelReset => root

namespace MergedProxyModel

/-- The proxy after one slot has run. -/
def slot (env : Env) (st : MergedProxyModel) : SlotCall → MergedProxyModel
  | SlotCall.RowsAboutToBeInserted sender source_parent start end_ =>
    RowsAboutToBeInserted env st sender source_parent start end_
  | SlotCall.RowsInserted _ _ _ _ => RowsInserted st
  | SlotCall.RowsAboutToBeRemoved sender source_parent start end_ =>
    RowsAboutToBeRemoved env st sender source_parent start end_
  | SlotCall.RowsRemoved _ _ _ _ => RowsRemoved st
  | SlotCall.SubModelReset sender => SubModelReset env st sender
  | SlotCall.SourceModelReset => SourceModelReset st

/-- The proxy after a sequence of slot invocations, each with the providers
as they are when it runs. -/
def runSlots (st : MergedProxyModel) : List (Env × SlotCall) → MergedProxyModel
  | [] => st
  | (env, call) :: rest => runSlots (slot env st call) rest

end MergedProxyModel

/-- Which bracket is open: none, an insert bracket or a remove bracket. -/
inductive Pending where
  | idle
  | insert
  | remove
deriving DecidableEq, Repr

/-- The bracket protocol on the side of the providers, one signal at a time:
a change is announced only when none is pending, it is completed by the
signal of its kind, and a model is reset only when no change is pending.
`none` when the signal breaks the protocol. -/
def protocolStep : Pending → SlotCall → Option Pending
  | Pending.idle, SlotCall.RowsAboutToBeInserted _ _ _ _ => some Pending.insert
  | Pending.insert, SlotCall.RowsInserted _ _ _ _ => some Pending.idle
  | Pending.idle, SlotCall.RowsAboutToBeRemoved _ _ _ _ => some Pending.remove
  | Pending.remove, SlotCall.RowsRemoved _ _ _ _ => some Pending.idle
  | Pending.idle, SlotCall.SubModelReset _ => some Pending.idle
  | Pending.idle, SlotCall.SourceModelReset => some Pending.idle
  | _, _ => none

/-- The bracket protocol over a sequence of signals. -/
def protocolRun : Pending → List SlotCall → Option Pending
  | p, [] => some p
  | p, call :: rest =>
    match protocolStep p call with
    | none => none
    | some q => protocolRun q rest

/-- The bracket protocol kept by each provider for itself: every model has
its own pending change, and a signal has to be allowed by the pending change
of its sender only.  `none` when a signal breaks the protocol of its
sender. -/
def perProviderRun (root : ModelId) : (ModelId → Pending) → List SlotCall →
    Option (ModelId → Pending)
  | pending, [] => some pending
  | pending, call :: rest =>
    match protocolStep (pending (call.sender root)) call with
    | none => none
    | some q => perProviderRun root (Function.update pending (call.sender root) q) rest

/-- Well-bracketing on the side of the consumer, one notification at a time:
a bracket opens only when none is open, and is closed by the end of its
kind; `reset()` and the `SubModelReset` signal open and close nothing.
`none` when the notification breaks the bracketing. -/
def bracketStep : Pending → Notification → Option Pending
  | Pending.idle, Notification.beginInsertRows _ _ _ => some Pending.insert
  | Pending.insert, Notification.endInsertRows => some Pending.idle
  | Pending.idle, Notification.beginRemoveRows _ _ _ => some Pending.remove
  | Pending.remove, Notification.endRemoveRows => some Pending.idle
  | p, Notification.reset => some p
  | p, Notification.SubModelReset _ _ => some p
  | _, _ => none

/-- Well-bracketing of a sequence of notifications: the bracket left open at
its end, or `none` when the sequence is not well-bracketed. -/
def bracketRun : Pending → List Notification → Option Pending
  | p, [] => some p
  | p, n :: rest =>
    match bracketStep p n with
    | none => none
    | some q => bracketRun q rest

/-! ## Capability passthrough -/

/-- The remaining virtual functions of the provider models, each taking the
address of the model it is called on: `V` stands for `QVariant`, `I` for
`QMap<int, QVariant>`, `F` for `Qt::ItemFlags` and `M` for `QMimeData`. -/
structure Caps (V I F M : Type) where
  data : ModelId → QModelIndex → Int → V
  itemData : ModelId → QModelIndex → I
  flags : ModelId → QModelIndex → F
  setData : ModelId → QModelIndex → V → Int → Bool
  canFetchMore : ModelId → QModelIndex → Bool
  mimeData : ModelId → List QModelIndex → Option M

namespace MergedProxyModel

/-- `MergedProxyModel::data`: `source_index.model()->data(source_index, role)`. -/
def data {V I F M : Type} (caps : Caps V I F M) (st : MergedProxyModel)
    (proxyIndex : QModelIndex) (role : Int) : Option V :=
  let source_index := mapToSource st proxyIndex
  match source_index.model with
  | none => none
  | some m => some (caps.data m source_index role)

/-- `MergedProxyModel::itemData`. -/
def itemData {V I F M : Type} (caps : Caps V I F M) (env : Env) (st : MergedProxyModel)
    (proxy_index : QModelIndex) : Option I :=
  let source_index := mapToSource st proxy_index
  if !source_index.isValid then some (caps.itemData env.sourceModel QModelIndex.invalid)
  else
    match source_index.model with
    | none => none
    | some m => some (caps.itemData m source_index)

/-- `MergedProxyModel::flags`. -/
def flags {V I F M : Type} (caps : Caps V I F M) (env : Env) (st : MergedProxyModel)
    (index : QModelIndex) : Option F :=
  let source_index := mapToSource st index
  if !source_index.isValid then some (caps.flags env.sourceModel QModelIndex.invalid)
  else
    match source_index.model with
    | none => none
    | some m => some (caps.flags m source_index)

/-- The call `MergedProxyModel::setData` forwards: the model it calls
`setData` on and the index it passes, `none` when the model pointer it
dereferences is NULL.  Line 298 is `sourceModel()->setData(index, ...)`, line
299 is `GetModel(index)->setData(index, ...)`, both with the `index` the
proxy was called with. -/
def setData_call (env : Env) (st : MergedProxyModel) (index : QModelIndex) :
    Option (ModelId × QModelIndex) :=
  let source_index := mapToSource st index
  if !source_index.isValid then some (env.sourceModel, index)
  else
    match GetModel env st index with
    | none => none
    | some m => some (m, index)

/-- `MergedProxyModel::setData`: the result of the forwarded call. -/
def setData {V I F M : Type} (caps : Caps V I F M) (env : Env) (st : MergedProxyModel)
    (index : QModelIndex) (value : V) (role : Int) : Option Bool :=
  (setData_call env st index).map (fun t => caps.setData t.1 t.2 value role)

/-- `MergedProxyModel::canFetchMore`. -/
def canFetchMore {V I F M : Type} (caps : Caps V I F M) (env : Env) (st : MergedProxyModel)
    (parent : QModelIndex) : Option Bool :=
  let source_index := mapToSource st parent
  if !source_index.isValid then some (caps.canFetchMore env.sourceModel QModelIndex.invalid)
  else
    match source_index.model with
    | none => none
    | some m => some (caps.canFetchMore m source_index)

/-- The call `MergedProxyModel::mimeData` forwards: `some none` when the list
is empty (it returns 0 without a call), `none` when the model of the first
index is NULL and dereferenced, else the model and `indexes_in_model`. -/
def mimeData_call (st : MergedProxyModel) (indexes : List QModelIndex) :
    Option (Option (ModelId × List QModelIndex)) :=
  match indexes with
  | [] => some none
  | first :: _ =>
    let model := (mapToSource st first).model
    let indexes_in_model :=
      (indexes.map (mapToSource st)).filter (fun source_index =>
        decide (source_index.model = model))
    match model with
    | none => none
    | some m => some (some (m, indexes_in_model))

/-- `MergedProxyModel::mimeData`: 0 or the result of the forwarded call. -/
def mimeData {V I F M : Type} (caps : Caps V I F M) (st : MergedProxyModel)
    (indexes : List QModelIndex) : Option (Option M) :=
  (mimeData_call st indexes).map (fun c => c.bind (fun t => caps.mimeData t.1 t.2))

end MergedProxyModel

/-! ## The calls of the count accessors -/

/-- A call of a count function of a provider model. -/
inductive ProviderCall where
  | rowCount (model : ModelId) (parent : QModelIndex)
  | columnCount (model : ModelId) (parent : QModelIndex)
deriving DecidableEq, Repr

namespace MergedProxyModel

/-- The calls `MergedProxyModel::rowCount` makes on the providers, in order
(up to the dereference of a NULL model pointer, if there is one). -/
def rowCount_calls (env : Env) (st : MergedProxyModel) (parent : QModelIndex) :
    List ProviderCall :=
  if !parent.isValid then [ProviderCall.rowCount env.sourceModel QModelIndex.invalid]
  else
    let source_parent := mapToSource st parent
    match QMap.key st.merge_points_ source_parent with
    | some child_model =>
      match source_parent.model with
      | none => []
      | some m =>
        [ProviderCall.rowCount m source_parent,
          ProviderCall.rowCount child_model QModelIndex.invalid]
    | none =>
      match source_parent.model with
      | none => []
      | some m => [ProviderCall.rowCount m source_parent]

/-- The calls `MergedProxyModel::columnCount` makes on the providers, in
order. -/
def columnCount_calls (env : Env) (st : MergedProxyModel) (parent : QModelIndex) :
    List ProviderCall :=
  if !parent.isValid then [ProviderCall.columnCount env.sourceModel QModelIndex.invalid]
  else
    let source_parent := mapToSource st parent
    match QMap.key st.merge_points_ source_parent with
    | some child_model => [ProviderCall.columnCount child_model QModelIndex.invalid]
    | none =>
      match source_parent.model with
      | none => []
      | some m => [ProviderCall.columnCount m source_parent]

end MergedProxyModel

/-! ## Sequences of operations -/

/-- One operation on the proxy: a call of a member function that can change
its state, or a slot run by a signal of a provider. -/
inductive Op where
  | mapFromSource (source_index : QModelIndex)
  | index (row column : Int) (parent : QModelIndex)
  | parent (child : QModelIndex)
  | AddSubModel (source_parent : QModelIndex) (submodel : ModelId)
  | slot (call : SlotCall)
deriving DecidableEq, Repr

/-- The operations that invalidate mappings: the two resets. -/
def Op.invalidates : Op → Bool
  | Op.slot (SlotCall.SubModelReset _) => true
  | Op.slot SlotCall.SourceModelReset => true
  | _ => false

namespace MergedProxyModel

/-- The proxy after one operation (unchanged by an `index` that dereferences
NULL before it reaches `mapFromSource`). -/
def step (env : Env) (st : MergedProxyModel) : Op → MergedProxyModel
  | Op.mapFromSource source_index => (mapFromSource env st source_index).2
  | Op.index row column parent =>
    match index env st row column parent with
    | some r => r.2
    | none => st
  | Op.parent child => (MergedProxyModel.parent env st child).2
  | Op.AddSubModel source_parent submodel => AddSubModel st source_parent submodel
  | Op.slot call => slot env st call

/-- Uniqueness in the container of mappings: no two mappings share an address
and no two share a source index. -/
def RegistryUnique (c : List Mapping) : Prop :=
  (c.map Mapping.ptr).Nodup ∧ (c.map Mapping.source_index).Nodup

/-- The proxy after a sequence of operations, each with the providers as
they are when it runs. -/
def runOps (st : MergedProxyModel) : List (Env × Op) → MergedProxyModel
  | [] => st
  | (env, op) :: rest => runOps (step env st op) rest

end MergedProxyModel

namespace Scenario

/-- Capabilities for the scenario: the data of an index is its row, every
call of `setData` succeeds, and the drag payload is the list of indexes. -/
def caps : Caps Int Int Int (List QModelIndex) where
  data := fun _ i _ => i.row
  itemData := fun m _ => m
  flags := fun m _ => m
  setData := fun _ _ _ _ => true
  canFetchMore := fun m i => decide (m = 1) && !i.isValid
  mimeData := fun _ l => some l

/-- The proxy after a second submodel (address 3) is attached at `A` too. -/
def twice : MergedProxyModel := MergedProxyModel.AddSubModel attached A 3

/-- The proxy with the submodels 2 and 3 both attached at `A`, once `A` has
been handed out (as `mergedA`). -/
def twiceExposed : MergedProxyModel := (MergedProxyModel.mapFromSource env twice A).2

end Scenario

/-! ## Lemmas on the containers -/

namespace MappingContainer

theorem findBySource_eq_some {c : List Mapping} {s : QModelIndex} {mp : Mapping}
    (h : findBySource c s = some mp) : mp ∈ c ∧ mp.source_index = s := by
  unfold findBySource at h
  exact ⟨List.mem_of_find?_eq_some h, by simpa using List.find?_some h⟩

theorem findBySource_eq_none {c : List Mapping} {s : QModelIndex}
    (h : findBySource c s = none) : ∀ mp ∈ c, mp.source_index ≠ s := by
  unfold findBySource at h
  intro mp hmp
  simpa using (List.find?_eq_none.mp h) mp hmp

theorem findByPointer_eq_some {c : List Mapping} {p : Nat} {mp : Mapping}
    (h : findByPointer c p = some mp) : mp ∈ c ∧ mp.ptr = p := by
  unfold findByPointer at h
  exact ⟨List.mem_of_find?_eq_some h, by simpa using List.find?_some h⟩

theorem findByPointer_eq_none {c : List Mapping} {p : Nat}
    (h : p ∉ pointers c) : findByPointer c p = none := by
  unfold findByPointer
  rw [List.find?_eq_none]
  intro mp hmp
  have : mp.ptr ≠ p := fun e => h (e ▸ List.mem_map_of_mem Mapping.ptr hmp)
  simpa using this

/-- With pairwise distinct addresses, the lookup by address of a live mapping
returns that mapping. -/
theorem findByPointer_of_mem {c : List Mapping} (hnd : (pointers c).Nodup) {mp : Mapping}
    (hmem : mp ∈ c) : findByPointer c mp.ptr = some mp := by
  induction c with
  | nil => cases hmem
  | cons a t ih =>
    have hnd2 : a.ptr ∉ pointers t ∧ (pointers t).Nodup := by
      simpa [pointers] using hnd
    by_cases ha : a.ptr = mp.ptr
    · rcases List.mem_cons.mp hmem with rfl | hin
      · simp [findByPointer]
      · exact absurd (ha ▸ List.mem_map_of_mem Mapping.ptr hin) hnd2.1
    · rcases List.mem_cons.mp hmem with rfl | hin
      · exact absurd rfl ha
      · have := ih hnd2.2 hin
        simpa [findByPointer, ha] using this

theorem findBySource_append_of_some {c : List Mapping} {s : QModelIndex} {mp : Mapping}
    (h : findBySource c s = some mp) (d : List Mapping) :
    findBySource (c ++ d) s = some mp := by
  unfold findBySource at h ⊢
  simp [List.find?_append, h]

theorem findBySource_append_of_none {c : List Mapping} {s : QModelIndex}
    (h : findBySource c s = none) (d : List Mapping) :
    findBySource (c ++ d) s = findBySource d s := by
  unfold findBySource at h ⊢
  simp [List.find?_append, h]

theorem findByPointer_append_of_none {c : List Mapping} {p : Nat}
    (h : findByPointer c p = none) (d : List Mapping) :
    findByPointer (c ++ d) p = findByPointer d p := by
  unfold findByPointer at h ⊢
  simp [List.find?_append, h]

theorem findByPointer_append_of_some {c : List Mapping} {p : Nat} {mp : Mapping}
    (h : findByPointer c p = some mp) (d : List Mapping) :
    findByPointer (c ++ d) p = some mp := by
  unfold findByPointer at h ⊢
  simp [List.find?_append, h]

/-- An element with an unused address and an unused source index is inserted
at the end. -/
theorem insert_fresh {c : List Mapping} {mp : Mapping}
    (hs : findBySource c mp.source_index = none) (hp : mp.ptr ∉ pointers c) :
    insert c mp = c ++ [mp] := by
  unfold insert
  have hany : c.any (fun x => decide (x.source_index = mp.source_index) ||
      decide (x.ptr = mp.ptr)) = false := by
    rw [List.any_eq_false]
    intro x hx
    have h1 := findBySource_eq_none hs x hx
    have h2 : x.ptr ≠ mp.ptr := fun e => hp (e ▸ List.mem_map_of_mem Mapping.ptr hx)
    simp [h1, h2]
  simp [hany]

end MappingContainer

namespace QMap

theorem key_eq_some {mp : List (ModelId × QModelIndex)} {v : QModelIndex} {m : ModelId}
    (h : key mp v = some m) : (m, v) ∈ mp := by
  unfold key at h
  cases hf : mp.find? (fun e => decide (e.2 = v)) with
  | none => simp [hf] at h
  | some e =>
    rw [hf] at h
    have h : e.1 = m := by simpa using h
    have h1 := List.mem_of_find?_eq_some hf
    have h2 : e.2 = v := by simpa using List.find?_some hf
    have : e = (m, v) := Prod.ext h h2
    exact this ▸ h1

/-- The keys of a `QMap` are distinct, so the value of a key is the value of
the one entry that has the key. -/
theorem value_of_mem {mp : List (ModelId × QModelIndex)} (hk : (keys mp).Nodup)
    {m : ModelId} {v : QModelIndex} (h : (m, v) ∈ mp) : value mp (some m) = v := by
  induction mp with
  | nil => cases h
  | cons a t ih =>
    have hk2 : a.1 ∉ keys t ∧ (keys t).Nodup := by simpa [keys] using hk
    by_cases ha : a.1 = m
    · rcases List.mem_cons.mp h with heq | hin
      · simp [value, ← heq]
      · exact absurd (ha ▸ List.mem_map_of_mem Prod.fst hin) hk2.1
    · rcases List.mem_cons.mp h with heq | hin
      · exact absurd (by rw [← heq]) ha
      · have := ih hk2.2 hin
        simpa [value, ha] using this

theorem mem_keys_of_mem {mp : List (ModelId × QModelIndex)} {m : ModelId} {v : QModelIndex}
    (h : (m, v) ∈ mp) : m ∈ keys mp :=
  List.mem_map_of_mem Prod.fst h

theorem keys_nodup_of_sorted {mp : List (ModelId × QModelIndex)}
    (h : (keys mp).Pairwise (fun a b => a < b)) : (keys mp).Nodup :=
  h.imp (fun hab => Nat.ne_of_lt hab)

/-- A submodel that is the only one attached at `v` is the one the reverse
lookup `key(v)` returns. -/
theorem key_of_unique {mp : List (ModelId × QModelIndex)} {m : ModelId} {v : QModelIndex}
    (h : (m, v) ∈ mp) (huniq : ∀ k, (k, v) ∈ mp → k = m) : key mp v = some m := by
  unfold key
  cases hf : mp.find? (fun e => decide (e.2 = v)) with
  | none =>
    have := (List.find?_eq_none.mp hf) (m, v) h
    simp at this
  | some e =>
    have h1 := List.mem_of_find?_eq_some hf
    have h2 : e.2 = v := by simpa using List.find?_some hf
    have h3 : (e.1, v) ∈ mp := by rw [← h2]; exact h1
    simp [huniq e.1 h3]

end QMap

namespace MergedProxyModel

open MappingContainer

/-- What `mapFromSource` does when the source index is valid, is not of the
resetting model and has no mapping yet. -/
theorem mapFromSource_new (env : Env) (st : MergedProxyModel) (c : QModelIndex)
    (hc : c.isValid = true) (hr : c.model ≠ st.resetting_model_)
    (hf : findBySource st.mappings_ c = none) :
    mapFromSource env st c =
      (createIndex env c.row c.column (env.alloc.fresh (pointers st.mappings_)),
        { st with mappings_ :=
            st.mappings_ ++ [⟨env.alloc.fresh (pointers st.mappings_), c⟩] }) := by
  unfold mapFromSource
  have hins : MappingContainer.insert st.mappings_
      (⟨env.alloc.fresh (pointers st.mappings_), c⟩ : Mapping) =
      st.mappings_ ++ [⟨env.alloc.fresh (pointers st.mappings_), c⟩] :=
    insert_fresh hf (env.alloc.fresh_not_mem (pointers st.mappings_))
  simp [hc, hr, hf, hins]

/-- What `mapFromSource` does when the source index already has a mapping. -/
theorem mapFromSource_old (env : Env) (st : MergedProxyModel) (c : QModelIndex)
    (hc : c.isValid = true) (hr : c.model ≠ st.resetting_model_) {mp : Mapping}
    (hf : findBySource st.mappings_ c = some mp) :
    mapFromSource env st c = (createIndex env c.row c.column mp.ptr, st) := by
  unfold mapFromSource
  simp [hc, hr, hf]

theorem createIndex_isValid (env : Env) (c : QModelIndex) (p : Nat) (hc : c.isValid = true) :
    (createIndex env c.row c.column p).isValid = true := by
  simp only [QModelIndex.isValid, createIndex, Bool.and_eq_true, decide_eq_true_eq] at hc ⊢
  exact ⟨⟨hc.1.1, hc.1.2⟩, rfl⟩

/-- The proxy index made for a live mapping resolves to the source index of
that mapping. -/
theorem mapToSource_createIndex (env : Env) (st : MergedProxyModel) (c : QModelIndex)
    (hnd : (pointers st.mappings_).Nodup) (hc : c.isValid = true)
    (hr : c.model ≠ st.resetting_model_) {mp : Mapping}
    (hf : findBySource st.mappings_ c = some mp) :
    mapToSource st (createIndex env c.row c.column mp.ptr) = c := by
  obtain ⟨hmem, hsrc⟩ := findBySource_eq_some hf
  have hfind := findByPointer_of_mem hnd hmem
  simp only [mapToSource, createIndex_isValid env c _ hc]
  have hptr : (createIndex env c.row c.column mp.ptr).internalPointer = mp.ptr := rfl
  rw [hptr, hfind]
  simp [hsrc, hr]

/-- The state `mapFromSource` leaves for a valid source index that is not of
the resetting model: at most one mapping is appended, the source index has
a mapping, the returned proxy index carries its address, and the uniqueness
of addresses and of source indexes is kept. -/
theorem mapFromSource_valid (env : Env) (st : MergedProxyModel) (c : QModelIndex)
    (hc : c.isValid = true) (hr : c.model ≠ st.resetting_model_) :
    ∃ (mp : Mapping) (d : List Mapping),
      mapFromSource env st c =
        (createIndex env c.row c.column mp.ptr, { st with mappings_ := st.mappings_ ++ d }) ∧
      findBySource (st.mappings_ ++ d) c = some mp ∧
      ((pointers st.mappings_).Nodup → (pointers (st.mappings_ ++ d)).Nodup) ∧
      ((st.mappings_.map Mapping.source_index).Nodup →
        ((st.mappings_ ++ d).map Mapping.source_index).Nodup) := by
  cases hf : findBySource st.mappings_ c with
  | none =>
    refine ⟨⟨env.alloc.fresh (pointers st.mappings_), c⟩,
      [⟨env.alloc.fresh (pointers st.mappings_), c⟩],
      mapFromSource_new env st c hc hr hf, ?_, ?_, ?_⟩
    · rw [findBySource_append_of_none hf]; simp [findBySource]
    · intro hnd
      have hfresh := env.alloc.fresh_not_mem (pointers st.mappings_)
      simp only [pointers, List.map_append, List.map_cons, List.map_nil] at hfresh ⊢
      rw [List.nodup_append]
      refine ⟨hnd, List.nodup_singleton _, ?_⟩
      intro a ha hb
      rw [List.mem_singleton] at hb
      exact hfresh (hb ▸ ha)
    · intro hnd
      simp only [List.map_append, List.map_cons, List.map_nil]
      rw [List.nodup_append]
      refine ⟨hnd, List.nodup_singleton _, ?_⟩
      intro a ha hb
      rw [List.mem_singleton] at hb
      obtain ⟨x, hx, hxa⟩ := List.mem_map.mp ha
      exact findBySource_eq_none hf x hx (hxa.trans hb)
  | some mp =>
    refine ⟨mp, [], ?_, ?_, ?_, ?_⟩
    · rw [mapFromSource_old env st c hc hr hf]; simp
    · simpa using hf
    · intro hnd; simpa using hnd
    · intro hnd; simpa using hnd

/-- C1. Round trip: for a valid source index `c` whose model is not the
resetting model, and a proxy whose container holds no two mappings with the
same address, `mapToSource` applied (in the state `mapFromSource` leaves) to
the proxy index that `mapFromSource` returns for `c` gives back `c`. -/
theorem mapToSource_mapFromSource (env : Env) (st : MergedProxyModel) (c : QModelIndex)
    (hwf : st.WF) (hc : c.isValid = true) (hr : c.model ≠ st.resetting_model_) :
    mapToSource (mapFromSource env st c).2 (mapFromSource env st c).1 = c := by
  obtain ⟨mp, d, heq, hfind, hptr, _⟩ := mapFromSource_valid env st c hc hr
  rw [heq]
  exact mapToSource_createIndex env { st with mappings_ := st.mappings_ ++ d } c
    (hptr hwf.1) hc hr hfind

/-- A second call of `mapFromSource` for the same source index, right after
the first, returns the same proxy index and leaves the state as it is. -/
theorem mapFromSource_twice (env : Env) (st : MergedProxyModel) (c : QModelIndex) :
    mapFromSource env (mapFromSource env st c).2 c = mapFromSource env st c := by
  by_cases hc : c.isValid = true
  · by_cases hr : c.model = st.resetting_model_
    · simp [mapFromSource, hc, hr]
    · cases hf : findBySource st.mappings_ c with
      | none =>
        rw [mapFromSource_new env st c hc hr hf]
        have hf2 := findBySource_append_of_none hf
          [(⟨env.alloc.fresh (pointers st.mappings_), c⟩ : Mapping)]
        have hf3 : findBySource (st.mappings_ ++
            [(⟨env.alloc.fresh (pointers st.mappings_), c⟩ : Mapping)]) c =
            some ⟨env.alloc.fresh (pointers st.mappings_), c⟩ := by
          rw [hf2]; simp [findBySource]
        exact mapFromSource_old env
          { st with mappings_ :=
              st.mappings_ ++ [⟨env.alloc.fresh (pointers st.mappings_), c⟩] } c hc hr hf3
      | some mp =>
        rw [mapFromSource_old env st c hc hr hf]
        exact mapFromSource_old env st c hc hr hf
  · simp [mapFromSource, hc]

/-- In the scenario, `mapFromSource` hands out `mergedM1` for row 1 of `M`, and
`mapToSource` resolves it back. -/
theorem mapToSource_mapFromSource_witness :
    Scenario.exposed.WF ∧ (Scenario.Mrow 1).isValid = true ∧
      (Scenario.Mrow 1).model ≠ Scenario.exposed.resetting_model_ ∧
      mapToSource (mapFromSource Scenario.env Scenario.exposed (Scenario.Mrow 1)).2
        (mapFromSource Scenario.env Scenario.exposed (Scenario.Mrow 1)).1 = Scenario.Mrow 1 :=
  ⟨by decide, by decide, by decide,
    mapToSource_mapFromSource Scenario.env Scenario.exposed (Scenario.Mrow 1)
      (by decide) (by decide) (by decide)⟩

/-- A proxy index that `mapFromSource` returns without changing the state
is the proxy index of a mapping that is already in the container. -/
theorem mapFromSource_fixed (env : Env) (st : MergedProxyModel) (s p : QModelIndex)
    (hs : s.isValid = true) (hr : s.model ≠ st.resetting_model_)
    (h : mapFromSource env st s = (p, st)) :
    ∃ mp : Mapping, findBySource st.mappings_ s = some mp ∧
      p = createIndex env s.row s.column mp.ptr := by
  cases hf : findBySource st.mappings_ s with
  | none =>
    rw [mapFromSource_new env st s hs hr hf] at h
    have hlen := congrArg (fun t : QModelIndex × MergedProxyModel => t.2.mappings_.length) h
    simp at hlen
  | some mp =>
    rw [mapFromSource_old env st s hs hr hf] at h
    exact ⟨mp, rfl, (congrArg Prod.fst h).symm⟩

/-- A source index that has a mapping keeps its proxy index when mappings
are appended to the container. -/
theorem mapFromSource_append_old (env : Env) (st : MergedProxyModel) (s : QModelIndex)
    (d : List Mapping) (hs : s.isValid = true) (hr : s.model ≠ st.resetting_model_)
    {mp : Mapping} (hf : findBySource st.mappings_ s = some mp) :
    mapFromSource env { st with mappings_ := st.mappings_ ++ d } s =
      (createIndex env s.row s.column mp.ptr, { st with mappings_ := st.mappings_ ++ d }) :=
  mapFromSource_old env { st with mappings_ := st.mappings_ ++ d } s hs hr
    (findBySource_append_of_some hf d)

theorem mapFromSource_invalid (env : Env) (st : MergedProxyModel) :
    mapFromSource env st QModelIndex.invalid = (QModelIndex.invalid, st) := by
  simp [mapFromSource, QModelIndex.invalid, QModelIndex.isValid]

theorem model_isSome_of_isValid {s : QModelIndex} (hs : s.isValid = true) :
    ∃ m, s.model = some m := by
  simp only [QModelIndex.isValid, Bool.and_eq_true] at hs
  exact Option.isSome_iff_exists.mp hs.2

/-- `GetModel` of a source index of a registered submodel is that submodel. -/
theorem GetModel_submodel (env : Env) (st : MergedProxyModel) (c : QModelIndex) (m : ModelId)
    (hm : c.model = some m) (hne : m ≠ env.sourceModel) (hk : m ∈ QMap.keys st.merge_points_) :
    GetModel env st c = some m := by
  have h1 : ¬ (some m = some env.sourceModel) := fun e => hne (Option.some.inj e)
  simp only [GetModel, hm, h1, if_false]
  cases hf : (QMap.keys st.merge_points_).find? (fun submodel => decide (some submodel = some m)) with
  | none =>
    have := (List.find?_eq_none.mp hf) m hk
    simp at this
  | some x =>
    have : x = m := by simpa using List.find?_some hf
    rw [this]

/-- C3. `parent` undoes `index`.  Let no reset be in progress, let the
containers hold no duplicates, and let the source model not be registered as
a submodel.  Let the providers satisfy, for this row and column,
`parent(index(row, column, q)) == q` with `index(row, column, q)` one of
their own indexes, whenever they return a valid index for a `q` that is
invalid or their own.  Let `p` be `QModelIndex()` or the proxy index that is
live for a valid source index (an ordinary one or a merge point).  Then
`index(row, column, p)` does not fail: the provider it delegates to
returns some source index `c`, and when `c` is valid, `index` returns a
valid proxy index `i` that resolves to `c` and whose `parent` is `p` again.
For a merge point `p`, `c` is a top-level row of the submodel, whose parent
in the proxy is thus the proxy index of the merge point. -/
theorem parent_index (env : Env) (st : MergedProxyModel) (row column : Int) (p : QModelIndex)
    (hwf : st.WF) (hres : st.resetting_model_ = none)
    (hroot : env.sourceModel ∉ QMap.keys st.merge_points_)
    (hlaw : ∀ (P : ModelId) (q : QModelIndex), (q = QModelIndex.invalid ∨ q.model = some P) →
      (env.index P row column q).isValid = true →
      (env.index P row column q).model = some P ∧
        env.parent P (env.index P row column q) = q)
    (hp : p = QModelIndex.invalid ∨
      ∃ s : QModelIndex, s.isValid = true ∧ mapFromSource env st s = (p, st)) :
    ∃ c : QModelIndex, index_source env st row column p = some c ∧
      (c.isValid = true →
        ∃ (i : QModelIndex) (st1 : MergedProxyModel),
          index env st row column p = some (i, st1) ∧ i.isValid = true ∧
          mapToSource st1 i = c ∧ parent env st1 i = (p, st1)) := by
  -- what `index` and `parent` do once the provider `P` has answered `c`
  have wrap : ∀ (c : QModelIndex) (P : ModelId), index_source env st row column p = some c →
      c.isValid = true → c.model = some P →
      ∃ (mp : Mapping) (d : List Mapping),
        index env st row column p = some (createIndex env c.row c.column mp.ptr,
          { st with mappings_ := st.mappings_ ++ d }) ∧
        (createIndex env c.row c.column mp.ptr).isValid = true ∧
        mapToSource { st with mappings_ := st.mappings_ ++ d }
          (createIndex env c.row c.column mp.ptr) = c := by
    intro c P hc hcv hcm
    have hr : c.model ≠ st.resetting_model_ := by rw [hres, hcm]; simp
    obtain ⟨mp, d, heq, hfind, hptr, _⟩ := mapFromSource_valid env st c hcv hr
    refine ⟨mp, d, ?_, createIndex_isValid env c _ hcv, ?_⟩
    · simp [index, hc, heq]
    · exact mapToSource_createIndex env { st with mappings_ := st.mappings_ ++ d } c
        (hptr hwf.1) hcv hr hfind
  rcases hp with hp | ⟨s, hs, hps⟩
  · -- `p` is `QModelIndex()`: the source model is asked
    subst hp
    have hc : index_source env st row column QModelIndex.invalid =
        some (env.index env.sourceModel row column QModelIndex.invalid) := by
      simp [index_source, QModelIndex.invalid, QModelIndex.isValid]
    refine ⟨_, hc, fun hcv => ?_⟩
    obtain ⟨hown, hpar⟩ := hlaw env.sourceModel QModelIndex.invalid (Or.inl rfl) hcv
    obtain ⟨mp, d, hidx, hiv, hmap⟩ := wrap _ env.sourceModel hc hcv hown
    refine ⟨_, _, hidx, hiv, hmap, ?_⟩
    simp only [parent, hmap, hown, if_true, QModelIndex.parent, hpar]
    exact mapFromSource_invalid env _
  · -- `p` is the live proxy index of the valid source index `s`
    obtain ⟨P, hsP⟩ := model_isSome_of_isValid hs
    have hsr : s.model ≠ st.resetting_model_ := by rw [hres, hsP]; simp
    obtain ⟨mp0, hf0, hp0⟩ := mapFromSource_fixed env st s p hs hsr hps
    have hpv : p.isValid = true := hp0 ▸ createIndex_isValid env s _ hs
    have hps2 : mapToSource st p = s :=
      hp0 ▸ mapToSource_createIndex env st s hwf.1 hs hsr hf0
    have back : ∀ d : List Mapping,
        mapFromSource env { st with mappings_ := st.mappings_ ++ d } s =
          (p, { st with mappings_ := st.mappings_ ++ d }) := by
      intro d
      rw [hp0]
      exact mapFromSource_append_old env st s d hs hsr hf0
    cases hk : QMap.key st.merge_points_ s with
    | some m =>
      -- `s` is a merge point: the submodel `m` is asked for a top-level index
      have hc : index_source env st row column p =
          some (env.index m row column QModelIndex.invalid) := by
        simp [index_source, hpv, hps2, hk]
      refine ⟨_, hc, fun hcv => ?_⟩
      obtain ⟨hown, hpar⟩ := hlaw m QModelIndex.invalid (Or.inl rfl) hcv
      obtain ⟨mp, d, hidx, hiv, hmap⟩ := wrap _ m hc hcv hown
      refine ⟨_, _, hidx, hiv, hmap, ?_⟩
      have hmem := QMap.key_eq_some hk
      have hmk : m ∈ QMap.keys st.merge_points_ := QMap.mem_keys_of_mem hmem
      have hne : m ≠ env.sourceModel := fun e => hroot (e ▸ hmk)
      have hval : QMap.value st.merge_points_ (some m) = s :=
        QMap.value_of_mem (QMap.keys_nodup_of_sorted hwf.2.2) hmem
      have hget : GetModel env { st with mappings_ := st.mappings_ ++ d }
          (env.index m row column QModelIndex.invalid) = some m :=
        GetModel_submodel env _ _ m hown hne hmk
      have h1 : ¬ (some m = some env.sourceModel) := fun e => hne (Option.some.inj e)
      have hinv : QModelIndex.invalid.isValid = false := rfl
      simp only [parent, hmap, hown, h1, if_false, QModelIndex.parent, hpar, hinv,
        Bool.not_false, if_true, hget, hval]
      exact back d
    | none =>
      -- `s` is an ordinary index: its own model `P` is asked
      have hc : index_source env st row column p = some (env.index P row column s) := by
        simp [index_source, hpv, hps2, hk, hsP]
      refine ⟨_, hc, fun hcv => ?_⟩
      obtain ⟨hown, hpar⟩ := hlaw P s (Or.inr hsP) hcv
      obtain ⟨mp, d, hidx, hiv, hmap⟩ := wrap _ P hc hcv hown
      refine ⟨_, _, hidx, hiv, hmap, ?_⟩
      by_cases hP : P = env.sourceModel
      · subst hP
        simp only [parent, hmap, hown, if_true, QModelIndex.parent, hpar]
        exact back d
      · have h1 : ¬ (some P = some env.sourceModel) := fun e => hP (Option.some.inj e)
        simp only [parent, hmap, hown, h1, if_false, QModelIndex.parent, hpar, hs,
          Bool.not_true]
        exact back d

/-- The providers of the scenario satisfy `parent(index(row, column, q)) == q`
and return their own indexes. -/
theorem Scenario_env_law (row column : Int) (P : ModelId) (q : QModelIndex)
    (hv : (Scenario.env.index P row column q).isValid = true) :
    (Scenario.env.index P row column q).model = some P ∧
      Scenario.env.parent P (Scenario.env.index P row column q) = q := by
  simp only [Scenario.env] at hv ⊢
  split at hv
  · next hcond => simp [hcond]
  · exact absurd hv (by decide)

/-- In the scenario, `index(1, 0, merged(A))` is the proxy index of row 1 of
`M`, and its `parent` is `merged(A)`. -/
theorem parent_index_witness :
    (index Scenario.env Scenario.exposed 1 0 Scenario.mergedA =
        some (Scenario.mergedM1, Scenario.exposed) ∧
      parent Scenario.env Scenario.exposed Scenario.mergedM1 =
        (Scenario.mergedA, Scenario.exposed)) ∧
    ∃ c : QModelIndex,
      index_source Scenario.env Scenario.exposed 1 0 Scenario.mergedA = some c ∧
      (c.isValid = true →
        ∃ (i : QModelIndex) (st1 : MergedProxyModel),
          index Scenario.env Scenario.exposed 1 0 Scenario.mergedA = some (i, st1) ∧
          i.isValid = true ∧ mapToSource st1 i = c ∧
          parent Scenario.env st1 i = (Scenario.mergedA, st1)) :=
  ⟨by decide,
    parent_index Scenario.env Scenario.exposed 1 0 Scenario.mergedA (by decide) rfl (by decide)
      (fun P q _ hv => Scenario_env_law 1 0 P q hv)
      (Or.inr ⟨Scenario.A, by decide, by decide⟩)⟩

/-- The three branches of `index`, by the result of `merge_points_.key`. -/
theorem index_of_key (env : Env) (st : MergedProxyModel) (row column : Int)
    (parent : QModelIndex) :
    (parent.isValid = false →
      index env st row column parent =
        some (mapFromSource env st
          (env.index env.sourceModel row column QModelIndex.invalid))) ∧
    (∀ (s : QModelIndex) (m : ModelId), parent.isValid = true → mapToSource st parent = s →
      QMap.key st.merge_points_ s = some m →
      index env st row column parent =
        some (mapFromSource env st (env.index m row column QModelIndex.invalid))) ∧
    (∀ (s : QModelIndex) (P : ModelId), parent.isValid = true → mapToSource st parent = s →
      QMap.key st.merge_points_ s = none → s.model = some P →
      index env st row column parent =
        some (mapFromSource env st (env.index P row column s))) := by
  refine ⟨fun hp => ?_, fun s m hp hs hk => ?_, fun s P hp hs hk hP => ?_⟩
  · simp [index, index_source, hp]
  · simp [index, index_source, hp, hs, hk]
  · simp [index, index_source, hp, hs, hk, hP]

/-- The three branches of `rowCount` and `columnCount`, by the result of
`merge_points_.key`. -/
theorem counts_of_key (env : Env) (st : MergedProxyModel) (p : QModelIndex) :
    (p.isValid = false →
      rowCount env st p = some (env.rowCount env.sourceModel QModelIndex.invalid) ∧
      columnCount env st p = some (env.columnCount env.sourceModel QModelIndex.invalid)) ∧
    (∀ (s : QModelIndex) (m : ModelId), p.isValid = true → mapToSource st p = s →
      s.isValid = true → QMap.key st.merge_points_ s = some m →
      rowCount env st p = some (env.rowCount m QModelIndex.invalid) ∧
      columnCount env st p = some (env.columnCount m QModelIndex.invalid)) ∧
    (∀ (s : QModelIndex) (P : ModelId), p.isValid = true → mapToSource st p = s →
      QMap.key st.merge_points_ s = none → s.model = some P →
      rowCount env st p = some (env.rowCount P s) ∧
      columnCount env st p = some (env.columnCount P s)) := by
  refine ⟨fun hp => ?_, fun s m hp hs hsv hk => ?_, fun s P hp hs hk hP => ?_⟩
  · simp [rowCount, columnCount, hp]
  · obtain ⟨P, hP⟩ := model_isSome_of_isValid hsv
    simp [rowCount, columnCount, hp, hs, hk, hP]
  · simp [rowCount, columnCount, hp, hs, hk, hP]

/-- The merge-point branch of `hasChildren`, by the result of
`merge_points_.key`. -/
theorem hasChildren_of_key (env : Env) (st : MergedProxyModel) (p s : QModelIndex)
    (m P : ModelId) (hp : p.isValid = true) (hs : mapToSource st p = s)
    (hP : s.model = some P) (hk : QMap.key st.merge_points_ s = some m) :
    hasChildren env st p =
        some (env.hasChildren m QModelIndex.invalid || env.hasChildren P s) ∧
      (hasChildren env st p = some true ↔
        (env.hasChildren m QModelIndex.invalid = true ∨ env.hasChildren P s = true)) ∧
      (env.hasChildren m QModelIndex.invalid = true → env.hasChildren P s = false →
        hasChildren env st p = some true) := by
  have h1 : hasChildren env st p =
      some (env.hasChildren m QModelIndex.invalid || env.hasChildren P s) := by
    cases hm : env.hasChildren m QModelIndex.invalid <;>
      simp [hasChildren, hp, hs, hk, hP, hm]
  refine ⟨h1, ?_, ?_⟩
  · rw [h1]; simp
  · intro hm _; rw [h1, hm]; rfl

/-! ### Resets -/

/-- Whatever the source index, `mapFromSource` only appends mappings (none or
one), touches no other member, and keeps the addresses distinct. -/
theorem mapFromSource_state (env : Env) (st : MergedProxyModel) (c : QModelIndex) :
    ∃ d : List Mapping,
      (mapFromSource env st c).2 = { st with mappings_ := st.mappings_ ++ d } ∧
      ((pointers st.mappings_).Nodup → (pointers (st.mappings_ ++ d)).Nodup) := by
  by_cases hc : c.isValid = true
  · by_cases hr : c.model = st.resetting_model_
    · exact ⟨[], by simp [mapFromSource, hc, hr], fun h => by simpa using h⟩
    · obtain ⟨mp, d, heq, _, hptr, _⟩ := mapFromSource_valid env st c hc hr
      exact ⟨d, by rw [heq], hptr⟩
  · exact ⟨[], by simp [mapFromSource, hc], fun h => by simpa using h⟩

/-- Two live mappings with the same address are the same mapping. -/
theorem eq_of_ptr_eq {c : List Mapping} (hnd : (pointers c).Nodup) {x y : Mapping}
    (hx : x ∈ c) (hy : y ∈ c) (h : x.ptr = y.ptr) : x = y := by
  have h1 := findByPointer_of_mem hnd hx
  have h2 := findByPointer_of_mem hnd hy
  rw [h] at h1
  exact Option.some.inj (h1.symm.trans h2)

/-- Once the mappings of `submodel` are purged from a container with distinct
addresses, the address of a purged mapping is the address of no mapping. -/
theorem findByPointer_purged {c : List Mapping} (hnd : (pointers c).Nodup) (submodel : ModelId)
    {mp : Mapping} (hmem : mp ∈ c) (hm : mp.source_index.model = some submodel) :
    findByPointer (c.filter (fun x => !decide (x.source_index.model = some submodel))) mp.ptr =
      none := by
  unfold findByPointer
  rw [List.find?_eq_none]
  intro x hx
  obtain ⟨hxc, hxm⟩ := List.mem_filter.mp hx
  have hne : x.ptr ≠ mp.ptr := by
    intro e
    have := eq_of_ptr_eq hnd hxc hmem e
    rw [this, hm] at hxm
    simp at hxm
  simpa using hne

/-- The members of the proxy after `SubModelReset`, in terms of the state
after line 108. -/
theorem SubModelReset_fields (env : Env) (st : MergedProxyModel) (submodel : ModelId) :
    (SubModelReset env st submodel).mappings_ =
        (SubModelReset_parent env st submodel).2.mappings_.filter
          (fun x => !decide (x.source_index.model = some submodel)) ∧
      (SubModelReset env st submodel).resetting_model_ = none ∧
      (SubModelReset env st submodel).merge_points_ =
        (SubModelReset_parent env st submodel).2.merge_points_ := by
  simp only [SubModelReset, SubModelReset_signal, SubModelReset_insert, SubModelReset_purge,
    SubModelReset_unguard, SubModelReset_endRemove, SubModelReset_beginRemove,
    SubModelReset_guard, emit]
  split <;> simp

/-- A proxy index whose internal pointer is the address of a mapping of
`submodel` that was live when `SubModelReset` began resolves to the invalid
index in every state whose mappings are those left by the purge. -/
theorem mapToSource_purged (env : Env) (st S : MergedProxyModel) (submodel : ModelId)
    (hnd : (pointers st.mappings_).Nodup)
    (hS : S.mappings_ = (SubModelReset_parent env st submodel).2.mappings_.filter
      (fun x => !decide (x.source_index.model = some submodel)))
    (i : QModelIndex) (mp : Mapping) (hmem : mp ∈ st.mappings_)
    (hptr : i.internalPointer = mp.ptr) (hm : mp.source_index.model = some submodel) :
    mapToSource S i = QModelIndex.invalid := by
  obtain ⟨d, hst, hnd2⟩ := mapFromSource_state env st
    (QMap.value st.merge_points_ (some submodel))
  have hmaps : (SubModelReset_parent env st submodel).2.mappings_ = st.mappings_ ++ d := by
    unfold SubModelReset_parent; rw [hst]
  have hfind : findByPointer S.mappings_ i.internalPointer = none := by
    rw [hS, hmaps, hptr]
    exact findByPointer_purged (hnd2 hnd) submodel (List.mem_append_left d hmem) hm
  unfold mapToSource
  split
  · rfl
  · rw [hfind]

/-- C7. After `SubModelReset` for the submodel `m`, a proxy index that was
handed out for a source index of `m` (its internal pointer is the address of
a mapping, live when the reset began, whose source index belongs to `m`)
resolves through `mapToSource` to the invalid index. -/
theorem SubModelReset_invalidates (env : Env) (st : MergedProxyModel) (m : ModelId)
    (hwf : st.WF) (i : QModelIndex) (mp : Mapping) (hmem : mp ∈ st.mappings_)
    (hptr : i.internalPointer = mp.ptr) (hm : mp.source_index.model = some m) :
    mapToSource (SubModelReset env st m) i = QModelIndex.invalid :=
  mapToSource_purged env st (SubModelReset env st m) m hwf.1
    (SubModelReset_fields env st m).1 i mp hmem hptr hm

/-- In the scenario `merged(M row 1)` resolves to row 1 of `M` before `M` is
reset and to the invalid index after. -/
theorem SubModelReset_invalidates_witness :
    mapToSource Scenario.exposed Scenario.mergedM1 = Scenario.Mrow 1 ∧
    mapToSource (SubModelReset Scenario.env Scenario.exposed 2) Scenario.mergedM1 =
      QModelIndex.invalid :=
  ⟨by decide,
    SubModelReset_invalidates Scenario.env Scenario.exposed 2 (by decide) Scenario.mergedM1
      ⟨2, Scenario.Mrow 1⟩ (by decide) (by decide) (by decide)⟩

theorem wrapInt_sub_one (n : Int) (hlo : INT_MIN < n) (hhi : n ≤ INT_MAX) :
    wrapInt (n - 1) = n - 1 := by
  unfold wrapInt
  unfold INT_MIN at hlo
  unfold INT_MAX at hhi
  omega

theorem mapFromSource_emitted (env : Env) (st : MergedProxyModel) (c : QModelIndex) :
    (mapFromSource env st c).2.emitted = st.emitted := by
  obtain ⟨d, hst, _⟩ := mapFromSource_state env st c
  rw [hst]

/-- C8. What `SubModelReset` emits.  Let `m` be registered in `merge_points_`
with the source index `a`, let `merged` be the proxy index `mapFromSource`
returns for `a` when the reset begins, and let `n`, the row count the
submodel reports at `QModelIndex()`, be an `int` above `INT_MIN`.  Then the
reset appends to the log exactly: `beginRemoveRows(merged, 0, INT_MAX - 1)`,
`endRemoveRows()`, then, only when `n` is not zero,
`beginInsertRows(merged, 0, n - 1)` and `endInsertRows()`, and last the
signal `SubModelReset(merged, m)`. -/
theorem SubModelReset_emits (env : Env) (st : MergedProxyModel) (m : ModelId) (a : QModelIndex)
    (hwf : st.WF) (hreg : (m, a) ∈ st.merge_points_)
    (hlo : INT_MIN < env.rowCount m QModelIndex.invalid)
    (hhi : env.rowCount m QModelIndex.invalid ≤ INT_MAX) :
    INT_MAX - 1 = 2147483646 ∧
    (SubModelReset env st m).emitted =
      st.emitted ++
        ([Notification.beginRemoveRows (mapFromSource env st a).1 0 (INT_MAX - 1),
            Notification.endRemoveRows] ++
          (if env.rowCount m QModelIndex.invalid = 0 then []
            else [Notification.beginInsertRows (mapFromSource env st a).1 0
                (env.rowCount m QModelIndex.invalid - 1),
              Notification.endInsertRows]) ++
          [Notification.SubModelReset (mapFromSource env st a).1 m]) := by
  refine ⟨by decide, ?_⟩
  have hval : QMap.value st.merge_points_ (some m) = a :=
    QMap.value_of_mem (QMap.keys_nodup_of_sorted hwf.2.2) hreg
  have hem := mapFromSource_emitted env st a
  have hw := wrapInt_sub_one _ hlo hhi
  simp only [SubModelReset, SubModelReset_parent, hval, SubModelReset_signal,
    SubModelReset_insert, SubModelReset_purge, SubModelReset_unguard, SubModelReset_endRemove,
    SubModelReset_beginRemove, SubModelReset_guard, emit, hw]
  by_cases hn : env.rowCount m QModelIndex.invalid = 0
  · simp [hn, hem]
  · simp [hn, hem]

/-- In the scenario, the reset of `M` (three rows) emits the remove-all
bracket at `merged(A)`, an insert bracket for the rows 0 to 2 and the
signal. -/
theorem SubModelReset_emits_witness :
    (SubModelReset Scenario.env Scenario.exposed 2).emitted =
      [Notification.beginRemoveRows Scenario.mergedA 0 2147483646,
        Notification.endRemoveRows,
        Notification.beginInsertRows Scenario.mergedA 0 2,
        Notification.endInsertRows,
        Notification.SubModelReset Scenario.mergedA 2] ∧
    (SubModelReset Scenario.env Scenario.exposed 2).emitted =
      Scenario.exposed.emitted ++
        ([Notification.beginRemoveRows
              (mapFromSource Scenario.env Scenario.exposed Scenario.A).1 0 (INT_MAX - 1),
            Notification.endRemoveRows] ++
          (if Scenario.env.rowCount 2 QModelIndex.invalid = 0 then []
            else [Notification.beginInsertRows
                (mapFromSource Scenario.env Scenario.exposed Scenario.A).1 0
                (Scenario.env.rowCount 2 QModelIndex.invalid - 1),
              Notification.endInsertRows]) ++
          [Notification.SubModelReset
            (mapFromSource Scenario.env Scenario.exposed Scenario.A).1 2]) :=
  ⟨by decide,
    (SubModelReset_emits Scenario.env Scenario.exposed 2 Scenario.A (by decide) (by decide)
      (by decide) (by decide)).2⟩

/-- C10. `SourceModelReset` leaves `mappings_` and `merge_points_` empty, so
every proxy index resolves to the invalid index and no source index is a
merge point, and it emits one `reset()` and nothing else. -/
theorem SourceModelReset_clears (st : MergedProxyModel) :
    (SourceModelReset st).mappings_ = [] ∧
    (SourceModelReset st).merge_points_ = [] ∧
    (∀ i : QModelIndex, mapToSource (SourceModelReset st) i = QModelIndex.invalid) ∧
    (∀ x : QModelIndex, QMap.key (SourceModelReset st).merge_points_ x = none) ∧
    (∀ k : Option ModelId, QMap.value (SourceModelReset st).merge_points_ k =
      QModelIndex.invalid) ∧
    (SourceModelReset st).emitted = st.emitted ++ [Notification.reset] := by
  refine ⟨rfl, rfl, fun i => ?_, fun x => rfl, fun k => ?_, rfl⟩
  · simp only [mapToSource, SourceModelReset, emit, findByPointer, List.find?]
    split <;> rfl
  · cases k <;> rfl

/-- The states of `SubModelReset`, written with the two components of the
result of line 108. -/
theorem SubModelReset_states_eq (env : Env) (st : MergedProxyModel) (submodel : ModelId) :
    SubModelReset_states env st submodel =
      [(SubModelReset_parent env st submodel).2,
        SubModelReset_guard (SubModelReset_parent env st submodel).2 submodel,
        SubModelReset_beginRemove
          (SubModelReset_guard (SubModelReset_parent env st submodel).2 submodel)
          (SubModelReset_parent env st submodel).1,
        SubModelReset_endRemove (SubModelReset_beginRemove
          (SubModelReset_guard (SubModelReset_parent env st submodel).2 submodel)
          (SubModelReset_parent env st submodel).1),
        SubModelReset_unguard (SubModelReset_endRemove (SubModelReset_beginRemove
          (SubModelReset_guard (SubModelReset_parent env st submodel).2 submodel)
          (SubModelReset_parent env st submodel).1)),
        SubModelReset_purge (SubModelReset_unguard (SubModelReset_endRemove
          (SubModelReset_beginRemove
            (SubModelReset_guard (SubModelReset_parent env st submodel).2 submodel)
            (SubModelReset_parent env st submodel).1))) submodel,
        SubModelReset_insert env (SubModelReset_purge (SubModelReset_unguard
          (SubModelReset_endRemove (SubModelReset_beginRemove
            (SubModelReset_guard (SubModelReset_parent env st submodel).2 submodel)
            (SubModelReset_parent env st submodel).1))) submodel) submodel
          (SubModelReset_parent env st submodel).1,
        SubModelReset env st submodel] := rfl

/-- The last of the states of `SubModelReset` is the state it returns. -/
theorem SubModelReset_states_last (env : Env) (st : MergedProxyModel) (submodel : ModelId) :
    (SubModelReset_states env st submodel)[7]? = some (SubModelReset env st submodel) := by
  rw [SubModelReset_states_eq]; rfl

/-- While the guard names the model of a live mapping, the proxy index of
that mapping resolves to the invalid index. -/
theorem mapToSource_guarded (S : MergedProxyModel) (m : ModelId)
    (hnd : (pointers S.mappings_).Nodup) (hg : S.resetting_model_ = some m)
    (i : QModelIndex) (mp : Mapping) (hmem : mp ∈ S.mappings_)
    (hptr : i.internalPointer = mp.ptr) (hm : mp.source_index.model = some m) :
    mapToSource S i = QModelIndex.invalid := by
  unfold mapToSource
  split
  · rfl
  · rw [hptr, findByPointer_of_mem hnd hmem]
    simp [hm, hg]

/-- Without a guard, the valid proxy index of a live mapping resolves to the
source index of the mapping. -/
theorem mapToSource_unguarded (S : MergedProxyModel) (m : ModelId)
    (hnd : (pointers S.mappings_).Nodup) (hg : S.resetting_model_ = none)
    (i : QModelIndex) (hi : i.isValid = true) (mp : Mapping) (hmem : mp ∈ S.mappings_)
    (hptr : i.internalPointer = mp.ptr) (hm : mp.source_index.model = some m) :
    mapToSource S i = mp.source_index := by
  unfold mapToSource
  rw [hptr, findByPointer_of_mem hnd hmem]
  simp [hi, hm, hg]

/-- C9, as the code has it.  The states of `SubModelReset` for the submodel
`m` are numbered 0 to 7: after lines 108, 111, 112, 113, 114, 128, 135, 137.
In the states 1 to 3 (from `resetting_model_ = submodel` up to and including
`endRemoveRows()`) the guard names `m`, and a proxy index whose internal
pointer is the address of a mapping of `m`, still in the container, resolves
to the invalid index.  In state 4 (line 114 has cleared the guard, the purge
has not begun) the mappings are the same and a valid such proxy index
resolves to the source index of its mapping.  From state 5 on (the purge is
done) a proxy index of a mapping of `m` that was live when the reset began
resolves to the invalid index, its mapping being gone. -/
theorem SubModelReset_guard_window (env : Env) (st : MergedProxyModel) (m : ModelId)
    (hwf : st.WF) :
    (∀ (k : Nat) (S : MergedProxyModel), 1 ≤ k → k ≤ 3 →
      (SubModelReset_states env st m)[k]? = some S →
      S.resetting_model_ = some m ∧
      ∀ (i : QModelIndex) (mp : Mapping), mp ∈ S.mappings_ → i.internalPointer = mp.ptr →
        mp.source_index.model = some m → mapToSource S i = QModelIndex.invalid) ∧
    (∀ S : MergedProxyModel, (SubModelReset_states env st m)[4]? = some S →
      S.resetting_model_ = none ∧
      ∀ (i : QModelIndex) (mp : Mapping), mp ∈ S.mappings_ → i.internalPointer = mp.ptr →
        mp.source_index.model = some m → i.isValid = true →
        mapToSource S i = mp.source_index) ∧
    (∀ (k : Nat) (S : MergedProxyModel), 5 ≤ k →
      (SubModelReset_states env st m)[k]? = some S →
      ∀ (i : QModelIndex) (mp : Mapping), mp ∈ st.mappings_ → i.internalPointer = mp.ptr →
        mp.source_index.model = some m → mapToSource S i = QModelIndex.invalid) := by
  obtain ⟨d, hst, hnd2⟩ := mapFromSource_state env st (QMap.value st.merge_points_ (some m))
  have hmaps : (SubModelReset_parent env st m).2.mappings_ = st.mappings_ ++ d := by
    unfold SubModelReset_parent; rw [hst]
  have hnd : (pointers (SubModelReset_parent env st m).2.mappings_).Nodup := by
    rw [hmaps]; exact hnd2 hwf.1
  rw [SubModelReset_states_eq]
  refine ⟨fun k S h1 h3 hS => ?_, fun S hS => ?_, fun k S h5 hS => ?_⟩
  · have hS2 : S.resetting_model_ = some m ∧
        S.mappings_ = (SubModelReset_parent env st m).2.mappings_ := by
      interval_cases k <;>
        · simp only [List.getElem?_cons_succ, List.getElem?_cons_zero, Option.some.injEq] at hS
          subst hS
          exact ⟨rfl, rfl⟩
    refine ⟨hS2.1, fun i mp hmem hptr hm => ?_⟩
    exact mapToSource_guarded S m (hS2.2 ▸ hnd) hS2.1 i mp hmem hptr hm
  · have hS2 : S.resetting_model_ = none ∧
        S.mappings_ = (SubModelReset_parent env st m).2.mappings_ := by
      simp only [List.getElem?_cons_succ, List.getElem?_cons_zero, Option.some.injEq] at hS
      subst hS
      exact ⟨rfl, rfl⟩
    refine ⟨hS2.1, fun i mp hmem hptr hm hi => ?_⟩
    exact mapToSource_unguarded S m (hS2.2 ▸ hnd) hS2.1 i hi mp hmem hptr hm
  · intro i mp hmem hptr hm
    have hk : k = 5 ∨ k = 6 ∨ k = 7 := by
      by_contra hne
      have h8 : 8 ≤ k := by omega
      obtain ⟨j, rfl⟩ := Nat.exists_eq_add_of_le h8
      simp [Nat.add_comm 8 j] at hS
    have hSm : S.mappings_ = (SubModelReset_parent env st m).2.mappings_.filter
        (fun x => !decide (x.source_index.model = some m)) := by
      rcases hk with rfl | rfl | rfl <;>
        simp only [List.getElem?_cons_succ, List.getElem?_cons_zero, Option.some.injEq] at hS <;>
        subst hS
      · rfl
      · simp only [SubModelReset_insert]
        split <;> rfl
      · exact (SubModelReset_fields env st m).1
    exact mapToSource_purged env st S m hwf.1 hSm i mp hmem hptr hm

/-- In the scenario, while the remove-all bracket of the reset of `M` is
open (state 2), `merged(M row 1)` has its mapping and resolves to the
invalid index. -/
theorem SubModelReset_guard_window_witness :
    (SubModelReset_states Scenario.env Scenario.exposed 2)[2]? =
      some ⟨[⟨1, Scenario.A⟩, ⟨2, Scenario.Mrow 1⟩], [(2, Scenario.A)], some 2,
        [Notification.beginRemoveRows Scenario.mergedA 0 2147483646]⟩ ∧
    mapToSource ⟨[⟨1, Scenario.A⟩, ⟨2, Scenario.Mrow 1⟩], [(2, Scenario.A)], some 2,
        [Notification.beginRemoveRows Scenario.mergedA 0 2147483646]⟩ Scenario.mergedM1 =
      QModelIndex.invalid :=
  ⟨by decide,
    ((SubModelReset_guard_window Scenario.env Scenario.exposed 2 (by decide)).1 2
      ⟨[⟨1, Scenario.A⟩, ⟨2, Scenario.Mrow 1⟩], [(2, Scenario.A)], some 2,
        [Notification.beginRemoveRows Scenario.mergedA 0 2147483646]⟩
      (by decide) (by decide) (by decide)).2 Scenario.mergedM1 ⟨2, Scenario.Mrow 1⟩
      (by decide) (by decide) (by decide)⟩

/-- C9 as stated fails.  In the scenario, state 4 of the reset of `M` (the
guard is cleared, the purge has not begun) lies between the opening of the
remove-all bracket and the end of the purge; there the mapping of row 1 of
`M` is in the container and `merged(M row 1)` resolves to row 1 of `M`, not
to the invalid index. -/
theorem SubModelReset_guard_gap :
    ((SubModelReset_states Scenario.env Scenario.exposed 2)[4]? =
        some ⟨[⟨1, Scenario.A⟩, ⟨2, Scenario.Mrow 1⟩], [(2, Scenario.A)], none,
          [Notification.beginRemoveRows Scenario.mergedA 0 2147483646,
            Notification.endRemoveRows]⟩ ∧
      mapToSource ⟨[⟨1, Scenario.A⟩, ⟨2, Scenario.Mrow 1⟩], [(2, Scenario.A)], none,
          [Notification.beginRemoveRows Scenario.mergedA 0 2147483646,
            Notification.endRemoveRows]⟩ Scenario.mergedM1 = Scenario.Mrow 1) ∧
    ¬ (∀ (k : Nat) (S : MergedProxyModel), 2 ≤ k → k ≤ 5 →
      (SubModelReset_states Scenario.env Scenario.exposed 2)[k]? = some S →
      ∀ (i : QModelIndex) (mp : Mapping), mp ∈ S.mappings_ → i.internalPointer = mp.ptr →
        mp.source_index.model = some 2 → mapToSource S i = QModelIndex.invalid) := by
  refine ⟨⟨by decide, by decide⟩, fun h => ?_⟩
  have h4 := h 4 ⟨[⟨1, Scenario.A⟩, ⟨2, Scenario.Mrow 1⟩], [(2, Scenario.A)], none,
      [Notification.beginRemoveRows Scenario.mergedA 0 2147483646,
        Notification.endRemoveRows]⟩ (by decide) (by decide) (by decide)
    Scenario.mergedM1 ⟨2, Scenario.Mrow 1⟩ (by decide) (by decide) (by decide)
  exact absurd h4 (by decide)

end MergedProxyModel

/-! ### The mutation relay -/

theorem bracketRun_append (p : Pending) (l1 l2 : List Notification) :
    bracketRun p (l1 ++ l2) = (bracketRun p l1).bind (fun q => bracketRun q l2) := by
  induction l1 generalizing p with
  | nil => rfl
  | cons n t ih =>
    simp only [List.cons_append, bracketRun]
    cases bracketStep p n with
    | none => rfl
    | some q => exact ih q

namespace MergedProxyModel

open MappingContainer

/-- What `SubModelReset` appends to the log, whatever the state and the
sender. -/
theorem SubModelReset_emitted (env : Env) (st : MergedProxyModel) (submodel : ModelId) :
    (SubModelReset env st submodel).emitted =
      st.emitted ++
        ([Notification.beginRemoveRows (SubModelReset_parent env st submodel).1 0 (INT_MAX - 1),
            Notification.endRemoveRows] ++
          (if env.rowCount submodel QModelIndex.invalid = 0 then []
            else [Notification.beginInsertRows (SubModelReset_parent env st submodel).1 0
                (wrapInt (env.rowCount submodel QModelIndex.invalid - 1)),
              Notification.endInsertRows]) ++
          [Notification.SubModelReset (SubModelReset_parent env st submodel).1 submodel]) := by
  have hem : (SubModelReset_parent env st submodel).2.emitted = st.emitted :=
    mapFromSource_emitted env st _
  simp only [SubModelReset, SubModelReset_signal, SubModelReset_insert, SubModelReset_purge,
    SubModelReset_unguard, SubModelReset_endRemove, SubModelReset_beginRemove,
    SubModelReset_guard, emit]
  by_cases hn : env.rowCount submodel QModelIndex.invalid = 0
  · simp [hn, hem]
  · simp [hn, hem]

/-- One slot, run on a signal the protocol allows, appends to the log a
well-bracketed piece that leaves open what the protocol leaves pending. -/
theorem slot_emitted (env : Env) (st : MergedProxyModel) (call : SlotCall) (p q : Pending)
    (h : protocolStep p call = some q) :
    ∃ fresh : List Notification,
      (slot env st call).emitted = st.emitted ++ fresh ∧ bracketRun p fresh = some q := by
  cases call with
  | RowsAboutToBeInserted sender source_parent start end_ =>
    cases p <;> simp only [protocolStep, Option.some.injEq] at h <;> try cases h
    exact ⟨[Notification.beginInsertRows
      (mapFromSource env st (GetActualSourceParent env st source_parent sender)).1 start end_],
      by simp only [slot, RowsAboutToBeInserted, emit, mapFromSource_emitted], rfl⟩
  | RowsInserted sender source_parent start end_ =>
    cases p <;> simp only [protocolStep, Option.some.injEq] at h <;> try cases h
    exact ⟨[Notification.endInsertRows], rfl, rfl⟩
  | RowsAboutToBeRemoved sender source_parent start end_ =>
    cases p <;> simp only [protocolStep, Option.some.injEq] at h <;> try cases h
    exact ⟨[Notification.beginRemoveRows
      (mapFromSource env st (GetActualSourceParent env st source_parent sender)).1 start end_],
      by simp only [slot, RowsAboutToBeRemoved, emit, mapFromSource_emitted], rfl⟩
  | RowsRemoved sender source_parent start end_ =>
    cases p <;> simp only [protocolStep, Option.some.injEq] at h <;> try cases h
    exact ⟨[Notification.endRemoveRows], rfl, rfl⟩
  | SubModelReset sender =>
    cases p <;> simp only [protocolStep, Option.some.injEq] at h <;> try cases h
    refine ⟨_, SubModelReset_emitted env st sender, ?_⟩
    by_cases hn : env.rowCount sender QModelIndex.invalid = 0
    · simp [hn, bracketRun, bracketStep]
    · simp [hn, bracketRun, bracketStep]
  | SourceModelReset =>
    cases p <;> simp only [protocolStep, Option.some.injEq] at h <;> try cases h
    exact ⟨[Notification.reset], rfl, rfl⟩

/-- A run of slots on signals the protocol allows extends a well-bracketed
log to a well-bracketed log. -/
theorem runSlots_bracketRun (calls : List (Env × SlotCall)) (st : MergedProxyModel)
    (p0 p q : Pending) (hlog : bracketRun p0 st.emitted = some p)
    (hin : protocolRun p (calls.map Prod.snd) = some q) :
    bracketRun p0 (runSlots st calls).emitted = some q := by
  induction calls generalizing st p with
  | nil =>
    simp only [List.map_nil, protocolRun, Option.some.injEq] at hin
    subst hin
    exact hlog
  | cons c rest ih =>
    obtain ⟨env, call⟩ := c
    simp only [List.map_cons, protocolRun] at hin
    cases hstep : protocolStep p call with
    | none => simp [hstep] at hin
    | some r =>
      simp only [hstep] at hin
      obtain ⟨fresh, hem, hbr⟩ := slot_emitted env st call p r hstep
      have hlog2 : bracketRun p0 (slot env st call).emitted = some r := by
        rw [hem, bracketRun_append, hlog]
        exact hbr
      exact ih (slot env st call) r hlog2 hin

/-- C11, as the code has it.  Well-bracketed output.  Let the signals of all
providers together keep the bracket protocol, one change at a time: rows are
announced only when no change of any provider is pending, the announcement
is completed by the signal of its kind, and a model (the source model or a
submodel) is reset only when no change is pending.  Then the notifications the proxy emits, from an empty log on,
are well-bracketed: a bracket is opened only when none is open, an end is
emitted only for the open bracket of its kind, and the bracket open after
the last notification is the change still pending on the side of the
providers (none when the sequence of signals is complete). -/
theorem relay_well_bracketed (calls : List (Env × SlotCall)) (st : MergedProxyModel)
    (q : Pending) (hst : st.emitted = [])
    (hin : protocolRun Pending.idle (calls.map Prod.snd) = some q) :
    bracketRun Pending.idle (runSlots st calls).emitted = some q :=
  runSlots_bracketRun calls st Pending.idle Pending.idle q (by rw [hst]; rfl) hin

/-- In the scenario: the source model inserts a row, `M` is reset, `M`
removes a row, the source model is reset; the ten notifications of the
proxy are well-bracketed. -/
theorem relay_well_bracketed_witness :
    (runSlots Scenario.exposed
      [(Scenario.env, SlotCall.RowsAboutToBeInserted 1 QModelIndex.invalid 1 1),
        (Scenario.env, SlotCall.RowsInserted 1 QModelIndex.invalid 1 1),
        (Scenario.env, SlotCall.SubModelReset 2),
        (Scenario.env, SlotCall.RowsAboutToBeRemoved 2 QModelIndex.invalid 0 0),
        (Scenario.env, SlotCall.RowsRemoved 2 QModelIndex.invalid 0 0),
        (Scenario.env, SlotCall.SourceModelReset)]).emitted =
      [Notification.beginInsertRows QModelIndex.invalid 1 1,
        Notification.endInsertRows,
        Notification.beginRemoveRows Scenario.mergedA 0 2147483646,
        Notification.endRemoveRows,
        Notification.beginInsertRows Scenario.mergedA 0 2,
        Notification.endInsertRows,
        Notification.SubModelReset Scenario.mergedA 2,
        Notification.beginRemoveRows Scenario.mergedA 0 0,
        Notification.endRemoveRows,
        Notification.reset] ∧
    bracketRun Pending.idle (runSlots Scenario.exposed
      [(Scenario.env, SlotCall.RowsAboutToBeInserted 1 QModelIndex.invalid 1 1),
        (Scenario.env, SlotCall.RowsInserted 1 QModelIndex.invalid 1 1),
        (Scenario.env, SlotCall.SubModelReset 2),
        (Scenario.env, SlotCall.RowsAboutToBeRemoved 2 QModelIndex.invalid 0 0),
        (Scenario.env, SlotCall.RowsRemoved 2 QModelIndex.invalid 0 0),
        (Scenario.env, SlotCall.SourceModelReset)]).emitted = some Pending.idle :=
  ⟨by decide,
    relay_well_bracketed _ Scenario.exposed Pending.idle (by decide) (by decide)⟩

theorem QMap_value_of_not_mem {mp : List (ModelId × QModelIndex)} {m : ModelId}
    (h : m ∉ QMap.keys mp) : QMap.value mp (some m) = QModelIndex.invalid := by
  have hf : mp.find? (fun e => decide (e.1 = m)) = none := by
    rw [List.find?_eq_none]
    intro e he
    have : e.1 ≠ m := fun heq => h (heq ▸ List.mem_map_of_mem Prod.fst he)
    simpa using this
  simp [QMap.value, hf]

theorem mapFromSource_not_valid (env : Env) (st : MergedProxyModel) (q : QModelIndex)
    (hq : q.isValid = false) : mapFromSource env st q = (QModelIndex.invalid, st) := by
  simp [mapFromSource, hq]

/-- The source parent the relay translates, case by case. -/
theorem GetActualSourceParent_cases (env : Env) (st : MergedProxyModel) (P : ModelId)
    (q : QModelIndex) :
    (q.isValid = false → P ≠ env.sourceModel →
      GetActualSourceParent env st q P = QMap.value st.merge_points_ (some P)) ∧
    ((q.isValid = true ∨ P = env.sourceModel) → GetActualSourceParent env st q P = q) := by
  constructor
  · intro hq hP
    simp [GetActualSourceParent, hq, hP]
  · intro h
    rcases h with hq | hP
    · simp [GetActualSourceParent, hq]
    · simp [GetActualSourceParent, hP]

/-- C12. Relay translation.  When the model `P` announces the insertion (or
the removal) of the rows `start` to `end` under its index `q`, the proxy
opens an insert (or remove) bracket with the same `start` and `end` at
`mapFromSource(q')`: `q'` is the source index `P` is attached at when `P` is
a registered submodel (not the source model) and `q` is invalid; in every
other case (`q` valid, `P` the source model, `P` not registered) the
bracket is the one at `mapFromSource(q)`. -/
theorem relay_translation (env : Env) (st : MergedProxyModel) (P : ModelId) (q : QModelIndex)
    (start end_ : Int) :
    (∀ a : QModelIndex, st.WF → (P, a) ∈ st.merge_points_ → P ≠ env.sourceModel →
      q.isValid = false →
      RowsAboutToBeInserted env st P q start end_ =
          emit (mapFromSource env st a).2
            (Notification.beginInsertRows (mapFromSource env st a).1 start end_) ∧
        RowsAboutToBeRemoved env st P q start end_ =
          emit (mapFromSource env st a).2
            (Notification.beginRemoveRows (mapFromSource env st a).1 start end_)) ∧
    ((q.isValid = true ∨ P = env.sourceModel ∨ P ∉ QMap.keys st.merge_points_) →
      RowsAboutToBeInserted env st P q start end_ =
          emit (mapFromSource env st q).2
            (Notification.beginInsertRows (mapFromSource env st q).1 start end_) ∧
        RowsAboutToBeRemoved env st P q start end_ =
          emit (mapFromSource env st q).2
            (Notification.beginRemoveRows (mapFromSource env st q).1 start end_)) := by
  constructor
  · intro a hwf hreg hP hq
    have hval : QMap.value st.merge_points_ (some P) = a :=
      QMap.value_of_mem (QMap.keys_nodup_of_sorted hwf.2.2) hreg
    have hg := (GetActualSourceParent_cases env st P q).1 hq hP
    simp only [RowsAboutToBeInserted, RowsAboutToBeRemoved, hg, hval, and_self]
  · intro h
    by_cases hq : q.isValid = true
    · have hg := (GetActualSourceParent_cases env st P q).2 (Or.inl hq)
      simp only [RowsAboutToBeInserted, RowsAboutToBeRemoved, hg, and_self]
    · by_cases hP : P = env.sourceModel
      · have hg := (GetActualSourceParent_cases env st P q).2 (Or.inr hP)
        simp only [RowsAboutToBeInserted, RowsAboutToBeRemoved, hg, and_self]
      · have hk : P ∉ QMap.keys st.merge_points_ := by
          rcases h with h | h | h
          · exact absurd h hq
          · exact absurd h hP
          · exact h
        have hq2 : q.isValid = false := by simpa using hq
        have hg := (GetActualSourceParent_cases env st P q).1 hq2 hP
        rw [QMap_value_of_not_mem hk] at hg
        simp only [RowsAboutToBeInserted, RowsAboutToBeRemoved, hg,
          mapFromSource_invalid, mapFromSource_not_valid env st q hq2, and_self]

/-- In the scenario: `M` announces top-level rows and the bracket opens at
`merged(A)`; the source model announces top-level rows and the bracket opens
at the invalid index. -/
theorem relay_translation_witness :
    (RowsAboutToBeInserted Scenario.env Scenario.exposed 2 QModelIndex.invalid 3 4).emitted =
      [Notification.beginInsertRows Scenario.mergedA 3 4] ∧
    (RowsAboutToBeRemoved Scenario.env Scenario.exposed 1 QModelIndex.invalid 0 0).emitted =
      [Notification.beginRemoveRows QModelIndex.invalid 0 0] ∧
    RowsAboutToBeInserted Scenario.env Scenario.exposed 2 QModelIndex.invalid 3 4 =
      emit (mapFromSource Scenario.env Scenario.exposed Scenario.A).2
        (Notification.beginInsertRows
          (mapFromSource Scenario.env Scenario.exposed Scenario.A).1 3 4) ∧
    RowsAboutToBeRemoved Scenario.env Scenario.exposed 1 QModelIndex.invalid 0 0 =
      emit (mapFromSource Scenario.env Scenario.exposed QModelIndex.invalid).2
        (Notification.beginRemoveRows
          (mapFromSource Scenario.env Scenario.exposed QModelIndex.invalid).1 0 0) :=
  ⟨by decide, by decide,
    ((relay_translation Scenario.env Scenario.exposed 2 QModelIndex.invalid 3 4).1 Scenario.A
      (by decide) (by decide) (by decide) (by decide)).1,
    ((relay_translation Scenario.env Scenario.exposed 1 QModelIndex.invalid 0 0).2
      (Or.inr (Or.inl (by decide)))).2⟩

/-! ### Indexes that resolve to the invalid index -/

/-- For a valid proxy index that resolves to `QModelIndex()`, when no submodel
is attached at `QModelIndex()`: `index`, `rowCount`, `columnCount` and
`hasChildren` dereference the NULL `source_parent.model()`, and `parent`
returns the invalid index. -/
theorem accessors_of_unresolved (env : Env) (st : MergedProxyModel) (it : QModelIndex)
    (row column : Int) (hv : it.isValid = true)
    (hres : mapToSource st it = QModelIndex.invalid)
    (hk : QMap.key st.merge_points_ QModelIndex.invalid = none) :
    index env st row column it = none ∧ rowCount env st it = none ∧
      columnCount env st it = none ∧ hasChildren env st it = none ∧
      parent env st it = (QModelIndex.invalid, st) := by
  have hm : QModelIndex.invalid.model = none := rfl
  refine ⟨?_, ?_, ?_, ?_, ?_⟩
  · simp [index, index_source, hv, hres, hk, hm]
  · simp [rowCount, hv, hres, hk, hm]
  · simp [columnCount, hv, hres, hk, hm]
  · simp [hasChildren, hv, hres, hk, hm]
  · have hg : GetModel env st QModelIndex.invalid = none := by
      simp [GetModel, hm]
    have hp : QModelIndex.invalid.parent env = QModelIndex.invalid := rfl
    have hiv : QModelIndex.invalid.isValid = false := rfl
    simp only [parent, hres, hm, hp, hiv, hg, QMap.value]
    simp [mapFromSource_invalid]

/-- C13, at the failing inputs.  In the scenario, after the reset of `M` the
proxy index `merged(M row 1)` is valid and its mapping is gone; while the
remove-all bracket of that reset is open (state 2) its mapping is there and
masked by the guard.  In both states it resolves to the invalid index, and
`index`, `rowCount`, `columnCount` and `hasChildren` do not return the
invalid index, 0 and false: each dereferences the NULL model pointer of the
resolved index.  Only `parent` returns the invalid index. -/
theorem unresolved_index_null_deref :
    (mapToSource (SubModelReset Scenario.env Scenario.exposed 2) Scenario.mergedM1 =
        QModelIndex.invalid ∧
      index Scenario.env (SubModelReset Scenario.env Scenario.exposed 2) 0 0
        Scenario.mergedM1 = none ∧
      rowCount Scenario.env (SubModelReset Scenario.env Scenario.exposed 2)
        Scenario.mergedM1 = none ∧
      columnCount Scenario.env (SubModelReset Scenario.env Scenario.exposed 2)
        Scenario.mergedM1 = none ∧
      hasChildren Scenario.env (SubModelReset Scenario.env Scenario.exposed 2)
        Scenario.mergedM1 = none ∧
      (parent Scenario.env (SubModelReset Scenario.env Scenario.exposed 2)
        Scenario.mergedM1).1 = QModelIndex.invalid) ∧
    ∃ S : MergedProxyModel,
      (SubModelReset_states Scenario.env Scenario.exposed 2)[2]? = some S ∧
      (⟨2, Scenario.Mrow 1⟩ : Mapping) ∈ S.mappings_ ∧
      mapToSource S Scenario.mergedM1 = QModelIndex.invalid ∧
      index Scenario.env S 0 0 Scenario.mergedM1 = none ∧
      rowCount Scenario.env S Scenario.mergedM1 = none ∧
      columnCount Scenario.env S Scenario.mergedM1 = none ∧
      hasChildren Scenario.env S Scenario.mergedM1 = none ∧
      (parent Scenario.env S Scenario.mergedM1).1 = QModelIndex.invalid :=
  ⟨by decide,
    ⟨⟨[⟨1, Scenario.A⟩, ⟨2, Scenario.Mrow 1⟩], [(2, Scenario.A)], some 2,
        [Notification.beginRemoveRows Scenario.mergedA 0 2147483646]⟩, by decide⟩⟩

/-! ### Capability passthrough -/

/-- When `setData` forwards a call, it passes the index it was called with. -/
theorem setData_call_index (env : Env) (st : MergedProxyModel) (index i : QModelIndex)
    (m : ModelId) (h : setData_call env st index = some (m, i)) : i = index := by
  by_cases hv : (mapToSource st index).isValid = true
  · cases hg : GetModel env st index with
    | none => simp [setData_call, hv, hg] at h
    | some g =>
      simp only [setData_call, hv, hg, Bool.not_true, Bool.false_eq_true, if_false,
        Option.some.injEq, Prod.mk.injEq] at h
      exact h.2.symm
  · have hv2 : (mapToSource st index).isValid = false := by simpa using hv
    simp only [setData_call, hv2, Bool.not_false, if_true, Option.some.injEq,
      Prod.mk.injEq] at h
    exact h.2.symm

/-- For an index made by `createIndex` (its model is the proxy) that resolves
to a valid source index, `GetModel(index)` is NULL and `setData` dereferences
it, unless the proxy is its own source model or one of its submodels. -/
theorem setData_call_null (env : Env) (st : MergedProxyModel) (index : QModelIndex)
    (hv : (mapToSource st index).isValid = true) (hm : index.model = some env.self)
    (hs : env.self ≠ env.sourceModel) (hk : env.self ∉ QMap.keys st.merge_points_) :
    setData_call env st index = none := by
  have h1 : ¬ (some env.self = some env.sourceModel) := fun e => hs (Option.some.inj e)
  have hg : GetModel env st index = none := by
    simp only [GetModel, hm, h1, if_false]
    rw [List.find?_eq_none]
    intro x hx
    have : x ≠ env.self := fun e => hk (e ▸ hx)
    simpa using this
  simp [setData_call, hv, hg]

/-- C14, at the failing input.  In the scenario `merged(M row 1)` resolves to
row 1 of `M`, a valid source index of the submodel `M` (address 2), and
`setData` on it does not call `M.setData(M row 1, ...)`: it looks up the
model of the proxy index itself, finds none among the source model and the
submodels, and dereferences NULL. -/
theorem setData_null_deref :
    mapToSource Scenario.exposed Scenario.mergedM1 = Scenario.Mrow 1 ∧
    (Scenario.Mrow 1).isValid = true ∧
    GetModel Scenario.env Scenario.exposed (Scenario.Mrow 1) = some 2 ∧
    GetModel Scenario.env Scenario.exposed Scenario.mergedM1 = none ∧
    setData_call Scenario.env Scenario.exposed Scenario.mergedM1 = none ∧
    setData_call Scenario.env Scenario.exposed Scenario.mergedM1 ≠
      some (2, Scenario.Mrow 1) ∧
    setData Scenario.caps Scenario.env Scenario.exposed Scenario.mergedM1 7 0 = none := by
  decide

/-- For a proxy index that resolves to `QModelIndex()`, `itemData`, `flags`
and `canFetchMore` return what the source model returns for `QModelIndex()`,
and `data` dereferences the NULL model pointer of the resolved index. -/
theorem passthrough_of_unresolved {V I F M : Type} (caps : Caps V I F M) (env : Env)
    (st : MergedProxyModel) (p : QModelIndex) (role : Int)
    (hres : mapToSource st p = QModelIndex.invalid) :
    itemData caps env st p = some (caps.itemData env.sourceModel QModelIndex.invalid) ∧
      flags caps env st p = some (caps.flags env.sourceModel QModelIndex.invalid) ∧
      canFetchMore caps env st p =
        some (caps.canFetchMore env.sourceModel QModelIndex.invalid) ∧
      data caps st p role = none := by
  have hiv : QModelIndex.invalid.isValid = false := rfl
  have hm : QModelIndex.invalid.model = none := rfl
  refine ⟨?_, ?_, ?_, ?_⟩
  · simp [itemData, hres, hiv]
  · simp [flags, hres, hiv]
  · simp [canFetchMore, hres, hiv]
  · simp [data, hres, hm]

/-- C15, at the failing inputs.  In the scenario, for the invalid index and
for the purged index `merged(M row 1)` after the reset of `M`, `itemData`,
`flags` and `canFetchMore` return what the source model returns for
`QModelIndex()`, and `data` does not: it dereferences the NULL model pointer
of the resolved index. -/
theorem data_null_deref :
    (data Scenario.caps Scenario.exposed QModelIndex.invalid 0 = none ∧
      itemData Scenario.caps Scenario.env Scenario.exposed QModelIndex.invalid =
        some (Scenario.caps.itemData 1 QModelIndex.invalid) ∧
      flags Scenario.caps Scenario.env Scenario.exposed QModelIndex.invalid =
        some (Scenario.caps.flags 1 QModelIndex.invalid) ∧
      canFetchMore Scenario.caps Scenario.env Scenario.exposed QModelIndex.invalid =
        some (Scenario.caps.canFetchMore 1 QModelIndex.invalid)) ∧
    (mapToSource (SubModelReset Scenario.env Scenario.exposed 2) Scenario.mergedM1 =
        QModelIndex.invalid ∧
      data Scenario.caps (SubModelReset Scenario.env Scenario.exposed 2)
        Scenario.mergedM1 0 = none ∧
      itemData Scenario.caps Scenario.env (SubModelReset Scenario.env Scenario.exposed 2)
        Scenario.mergedM1 = some (Scenario.caps.itemData 1 QModelIndex.invalid)) := by
  decide

/-- C16. `mimeData` filters by the model of the first index.  For a list of
proxy indexes whose first element resolves to a source index of the model
`P`, `mimeData` calls `P.mimeData` and returns its result; the list it
passes holds the source indexes the members of the list resolve to, in the
order of the list, those of the model `P` and no other. -/
theorem mimeData_filters {V I F M : Type} (caps : Caps V I F M) (st : MergedProxyModel)
    (first : QModelIndex) (rest : List QModelIndex) (P : ModelId)
    (hP : (mapToSource st first).model = some P) :
    mimeData_call st (first :: rest) =
        some (some (P, ((first :: rest).map (mapToSource st)).filter
          (fun s => decide (s.model = some P)))) ∧
      mimeData caps st (first :: rest) =
        some (caps.mimeData P (((first :: rest).map (mapToSource st)).filter
          (fun s => decide (s.model = some P)))) ∧
      List.Sublist (((first :: rest).map (mapToSource st)).filter
          (fun s => decide (s.model = some P))) ((first :: rest).map (mapToSource st)) ∧
      (∀ s : QModelIndex,
        s ∈ ((first :: rest).map (mapToSource st)).filter
            (fun s => decide (s.model = some P)) ↔
          (∃ i ∈ first :: rest, mapToSource st i = s) ∧ s.model = some P) := by
  have hcall : mimeData_call st (first :: rest) =
      some (some (P, ((first :: rest).map (mapToSource st)).filter
        (fun s => decide (s.model = some P)))) := by
    simp only [mimeData_call, hP]
  refine ⟨hcall, ?_, List.filter_sublist _, fun s => ?_⟩
  · simp only [mimeData, hcall, Option.map_some', Option.some_bind]
  · simp only [List.mem_filter, List.mem_map, decide_eq_true_eq]

/-- In the scenario, `mimeData` for `merged(A)`, `merged(M row 1)` and
`merged(A)` again asks the source model, with `A` twice; the index of `M` is
dropped. -/
theorem mimeData_filters_witness :
    mimeData Scenario.caps Scenario.exposed
        [Scenario.mergedA, Scenario.mergedM1, Scenario.mergedA] =
      some (some [Scenario.A, Scenario.A]) ∧
    mimeData_call Scenario.exposed [Scenario.mergedA, Scenario.mergedM1, Scenario.mergedA] =
      some (some (1, ([Scenario.mergedA, Scenario.mergedM1, Scenario.mergedA].map
        (mapToSource Scenario.exposed)).filter (fun s => decide (s.model = some 1)))) :=
  ⟨by decide,
    (mimeData_filters Scenario.caps Scenario.exposed Scenario.mergedA
      [Scenario.mergedM1, Scenario.mergedA] 1 (by decide)).1⟩

/-! ### Invariants of the containers -/

theorem mapFromSource_unique (env : Env) (st : MergedProxyModel) (c : QModelIndex)
    (h : RegistryUnique st.mappings_) :
    RegistryUnique (mapFromSource env st c).2.mappings_ := by
  by_cases hc : c.isValid = true
  · by_cases hr : c.model = st.resetting_model_
    · have : (mapFromSource env st c).2 = st := by simp [mapFromSource, hc, hr]
      rw [this]; exact h
    · obtain ⟨mp, d, heq, _, hptr, hsrc⟩ := mapFromSource_valid env st c hc hr
      rw [heq]
      exact ⟨hptr h.1, hsrc h.2⟩
  · have : (mapFromSource env st c).2 = st := by simp [mapFromSource, hc]
    rw [this]; exact h

theorem RegistryUnique_filter (c : List Mapping) (f : Mapping → Bool)
    (h : RegistryUnique c) : RegistryUnique (c.filter f) :=
  ⟨h.1.sublist ((List.filter_sublist c).map Mapping.ptr),
    h.2.sublist ((List.filter_sublist c).map Mapping.source_index)⟩

theorem SubModelReset_unique (env : Env) (st : MergedProxyModel) (submodel : ModelId)
    (h : RegistryUnique st.mappings_) :
    RegistryUnique (SubModelReset env st submodel).mappings_ := by
  rw [(SubModelReset_fields env st submodel).1]
  exact RegistryUnique_filter _ _ (mapFromSource_unique env st _ h)

theorem slot_unique (env : Env) (st : MergedProxyModel) (call : SlotCall)
    (h : RegistryUnique st.mappings_) : RegistryUnique (slot env st call).mappings_ := by
  cases call with
  | RowsAboutToBeInserted sender source_parent start end_ =>
    exact mapFromSource_unique env st _ h
  | RowsInserted sender source_parent start end_ => exact h
  | RowsAboutToBeRemoved sender source_parent start end_ =>
    exact mapFromSource_unique env st _ h
  | RowsRemoved sender source_parent start end_ => exact h
  | SubModelReset sender => exact SubModelReset_unique env st sender h
  | SourceModelReset => exact ⟨List.nodup_nil, List.nodup_nil⟩

theorem step_unique (env : Env) (st : MergedProxyModel) (op : Op)
    (h : RegistryUnique st.mappings_) : RegistryUnique (step env st op).mappings_ := by
  cases op with
  | mapFromSource source_index => exact mapFromSource_unique env st _ h
  | index row column parent =>
    simp only [step, index]
    cases index_source env st row column parent with
    | none => exact h
    | some c => exact mapFromSource_unique env st c h
  | parent child =>
    simp only [step, MergedProxyModel.parent]
    split
    · exact mapFromSource_unique env st _ h
    · split
      · exact mapFromSource_unique env st _ h
      · exact mapFromSource_unique env st _ h
  | AddSubModel source_parent submodel => exact h
  | slot call => exact slot_unique env st call h

theorem runOps_unique (ops : List (Env × Op)) (st : MergedProxyModel)
    (h : RegistryUnique st.mappings_) : RegistryUnique (runOps st ops).mappings_ := by
  induction ops generalizing st with
  | nil => exact h
  | cons o rest ih =>
    obtain ⟨env, op⟩ := o
    exact ih (step env st op) (step_unique env st op h)

/-- Two mappings of a container with distinct source indexes that have the
same source index are the same mapping. -/
theorem eq_of_source_eq {c : List Mapping} (hnd : (c.map Mapping.source_index).Nodup)
    {x y : Mapping} (hx : x ∈ c) (hy : y ∈ c) (h : x.source_index = y.source_index) :
    x = y :=
  List.inj_on_of_nodup_map hnd hx hy h

/-- C17. Uniqueness in the registry.  In every state reached from the proxy
as constructed by a sequence of `mapFromSource`, `index`, `parent`,
`AddSubModel`, `SubModelReset`, `SourceModelReset` and the relay slots, with
any providers at each step, no two mappings of `mappings_` have the same
source index and no two have the same address: mappings with the same
source index, or with the same address, are one mapping. -/
theorem registry_unique (ops : List (Env × Op)) :
    RegistryUnique (runOps init ops).mappings_ ∧
    (∀ x ∈ (runOps init ops).mappings_, ∀ y ∈ (runOps init ops).mappings_,
      x.source_index = y.source_index → x = y) ∧
    (∀ x ∈ (runOps init ops).mappings_, ∀ y ∈ (runOps init ops).mappings_,
      x.ptr = y.ptr → x = y) := by
  have h : RegistryUnique (runOps init ops).mappings_ :=
    runOps_unique ops init ⟨List.nodup_nil, List.nodup_nil⟩
  exact ⟨h, fun x hx y hy e => eq_of_source_eq h.2 hx hy e,
    fun x hx y hy e => eq_of_ptr_eq h.1 hx hy e⟩

end MergedProxyModel

namespace QMap

theorem mem_keys_insert {mp : List (ModelId × QModelIndex)} {k x : ModelId} {v : QModelIndex}
    (h : x ∈ keys (insert mp k v)) : x = k ∨ x ∈ keys mp := by
  induction mp with
  | nil =>
    simp only [insert, keys, List.map_cons, List.map_nil, List.mem_singleton] at h
    exact Or.inl h
  | cons a t ih =>
    obtain ⟨k0, v0⟩ := a
    simp only [insert] at h
    split at h
    · simp only [keys, List.map_cons, List.mem_cons] at h ⊢
      rcases h with h | h | h
      · exact Or.inl h
      · exact Or.inr (Or.inl h)
      · exact Or.inr (Or.inr h)
    · split at h
      · simp only [keys, List.map_cons, List.mem_cons] at h ⊢
        rcases h with h | h
        · exact Or.inl h
        · exact Or.inr (Or.inr h)
      · simp only [keys, List.map_cons, List.mem_cons] at h ⊢
        rcases h with h | h
        · exact Or.inr (Or.inl h)
        · rcases ih h with h | h
          · exact Or.inl h
          · exact Or.inr (Or.inr h)

/-- `QMap::insert` keeps the keys strictly ascending. -/
theorem insert_sorted {mp : List (ModelId × QModelIndex)} (k : ModelId) (v : QModelIndex)
    (h : (keys mp).Pairwise (fun a b => a < b)) :
    (keys (insert mp k v)).Pairwise (fun a b => a < b) := by
  induction mp with
  | nil => simp [insert, keys]
  | cons a t ih =>
    obtain ⟨k0, v0⟩ := a
    have h2 : (∀ x ∈ keys t, k0 < x) ∧ (keys t).Pairwise (fun a b => a < b) := by
      simpa [keys] using h
    simp only [insert]
    split
    · next hlt =>
      simp only [keys, List.map_cons, List.pairwise_cons, List.mem_cons]
      refine ⟨?_, ?_, h2.2⟩
      · intro x hx
        rcases hx with hx | hx
        · rw [hx]; exact hlt
        · exact Nat.lt_trans hlt (h2.1 x hx)
      · exact h2.1
    · next hnlt =>
      split
      · next heq =>
        simp only [keys, List.map_cons, List.pairwise_cons]
        exact ⟨fun x hx => heq ▸ h2.1 x hx, h2.2⟩
      · next hne =>
        have hk : k0 < k := Nat.lt_of_le_of_ne (Nat.le_of_not_lt hnlt) (fun e => hne e.symm)
        simp only [keys, List.map_cons, List.pairwise_cons]
        refine ⟨?_, ih h2.2⟩
        intro x hx
        rcases mem_keys_insert hx with hx | hx
        · rw [hx]; exact hk
        · exact h2.1 x hx

/-- With ascending keys, the key `QMap::key` returns is the lowest of the
keys that have the value. -/
theorem key_least {mp : List (ModelId × QModelIndex)}
    (hs : (keys mp).Pairwise (fun a b => a < b)) {v : QModelIndex} {m : ModelId}
    (h : key mp v = some m) : ∀ k, (k, v) ∈ mp → m ≤ k := by
  induction mp with
  | nil => intro k hk; cases hk
  | cons a t ih =>
    obtain ⟨k0, v0⟩ := a
    have h2 : (∀ x ∈ keys t, k0 < x) ∧ (keys t).Pairwise (fun a b => a < b) := by
      simpa [keys] using hs
    intro k hk
    by_cases hv : v0 = v
    · have hm : m = k0 := by
        simp [key, List.find?, hv] at h
        exact h.symm
      rcases List.mem_cons.mp hk with hk | hk
      · simp only [Prod.mk.injEq] at hk
        rw [hm, hk.1]
      · have := h2.1 k (mem_keys_of_mem hk)
        rw [hm]; exact Nat.le_of_lt this
    · have ht : key t v = some m := by
        simpa [key, List.find?, hv] using h
      rcases List.mem_cons.mp hk with hk | hk
      · simp only [Prod.mk.injEq] at hk; exact absurd hk.2.symm hv
      · exact ih h2.2 ht k hk

/-- A value that is in the map is found by `QMap::key`. -/
theorem key_isSome_of_mem {mp : List (ModelId × QModelIndex)} {m : ModelId} {v : QModelIndex}
    (h : (m, v) ∈ mp) : (key mp v).isSome = true := by
  unfold key
  cases hf : mp.find? (fun e => decide (e.2 = v)) with
  | none =>
    have := (List.find?_eq_none.mp hf) (m, v) h
    simp at this
  | some e => rfl

end QMap

namespace MergedProxyModel

open MappingContainer

theorem mapFromSource_merge_points (env : Env) (st : MergedProxyModel) (c : QModelIndex) :
    (mapFromSource env st c).2.merge_points_ = st.merge_points_ := by
  obtain ⟨d, hst, _⟩ := mapFromSource_state env st c
  rw [hst]

theorem step_sorted (env : Env) (st : MergedProxyModel) (op : Op)
    (h : (QMap.keys st.merge_points_).Pairwise (fun a b => a < b)) :
    (QMap.keys (step env st op).merge_points_).Pairwise (fun a b => a < b) := by
  cases op with
  | mapFromSource source_index =>
    simp only [step, mapFromSource_merge_points]; exact h
  | index row column parent =>
    simp only [step, index]
    cases index_source env st row column parent with
    | none => exact h
    | some c => simp only [Option.map_some', mapFromSource_merge_points]; exact h
  | parent child =>
    simp only [step, MergedProxyModel.parent]
    split
    · simp only [mapFromSource_merge_points]; exact h
    · split <;> (simp only [mapFromSource_merge_points]; exact h)
  | AddSubModel source_parent submodel =>
    exact QMap.insert_sorted submodel source_parent h
  | slot call =>
    cases call with
    | RowsAboutToBeInserted sender source_parent start end_ =>
      simp only [step, slot, RowsAboutToBeInserted, emit, mapFromSource_merge_points]
      exact h
    | RowsInserted sender source_parent start end_ => exact h
    | RowsAboutToBeRemoved sender source_parent start end_ =>
      simp only [step, slot, RowsAboutToBeRemoved, emit, mapFromSource_merge_points]
      exact h
    | RowsRemoved sender source_parent start end_ => exact h
    | SubModelReset sender =>
      simp only [step, slot, (SubModelReset_fields env st sender).2.2, SubModelReset_parent,
        mapFromSource_merge_points]
      exact h
    | SourceModelReset => exact List.Pairwise.nil

theorem runOps_sorted (ops : List (Env × Op)) (st : MergedProxyModel)
    (h : (QMap.keys st.merge_points_).Pairwise (fun a b => a < b)) :
    (QMap.keys (runOps st ops).merge_points_).Pairwise (fun a b => a < b) := by
  induction ops generalizing st with
  | nil => exact h
  | cons o rest ih =>
    obtain ⟨env, op⟩ := o
    exact ih (step env st op) (step_sorted env st op h)

/-- C18, as the code has it.  In every state reached from the proxy as
constructed by a sequence of operations (`AddSubModel`, resets and the
others), the keys of `merge_points_` are strictly ascending, so a submodel
is registered at most once and has one source index it is attached at.
Several submodels can be attached at one source index; the reverse lookup
`merge_points_.key` finds a submodel whenever one is attached there, and
the one it returns is attached there and has the lowest address of those
that are. -/
theorem merge_points_invariant (ops : List (Env × Op)) :
    (QMap.keys (runOps init ops).merge_points_).Pairwise (fun a b => a < b) ∧
    (∀ (m : ModelId) (a b : QModelIndex), (m, a) ∈ (runOps init ops).merge_points_ →
      (m, b) ∈ (runOps init ops).merge_points_ → a = b) ∧
    (∀ (m : ModelId) (v : QModelIndex), (m, v) ∈ (runOps init ops).merge_points_ →
      (QMap.key (runOps init ops).merge_points_ v).isSome = true) ∧
    (∀ (m : ModelId) (v : QModelIndex), QMap.key (runOps init ops).merge_points_ v = some m →
      (m, v) ∈ (runOps init ops).merge_points_ ∧
      ∀ k : ModelId, (k, v) ∈ (runOps init ops).merge_points_ → m ≤ k) := by
  have hs : (QMap.keys (runOps init ops).merge_points_).Pairwise (fun a b => a < b) :=
    runOps_sorted ops init List.Pairwise.nil
  refine ⟨hs, fun m a b ha hb => ?_, fun m v hm => QMap.key_isSome_of_mem hm,
    fun m v hk => ⟨QMap.key_eq_some hk, QMap.key_least hs hk⟩⟩
  have h1 := QMap.value_of_mem (QMap.keys_nodup_of_sorted hs) ha
  have h2 := QMap.value_of_mem (QMap.keys_nodup_of_sorted hs) hb
  exact h1.symm.trans h2

/-- C18 as stated fails.  After `AddSubModel(A, 2)` and `AddSubModel(A, 3)`
the two distinct submodels 2 and 3 are both registered at the source index
`A`, and the reverse lookup for `A` returns 2. -/
theorem merge_points_shared :
    (runOps init [(Scenario.env, Op.AddSubModel Scenario.A 2),
        (Scenario.env, Op.AddSubModel Scenario.A 3)]).merge_points_ =
      [(2, Scenario.A), (3, Scenario.A)] ∧
    QMap.key (runOps init [(Scenario.env, Op.AddSubModel Scenario.A 2),
        (Scenario.env, Op.AddSubModel Scenario.A 3)]).merge_points_ Scenario.A = some 2 ∧
    ¬ (∀ (m1 m2 : ModelId) (a : QModelIndex),
      (m1, a) ∈ (runOps init [(Scenario.env, Op.AddSubModel Scenario.A 2),
        (Scenario.env, Op.AddSubModel Scenario.A 3)]).merge_points_ →
      (m2, a) ∈ (runOps init [(Scenario.env, Op.AddSubModel Scenario.A 2),
        (Scenario.env, Op.AddSubModel Scenario.A 3)]).merge_points_ → m1 = m2) := by
  refine ⟨by decide, by decide, fun h => ?_⟩
  have := h 2 3 Scenario.A (by decide) (by decide)
  exact absurd this (by decide)

/-! ### The calls of the count accessors -/

/-- C19, as the code has it.  For a valid proxy index `p` that resolves to a
merge point `s` of the model `P`, with `m` the submodel `merge_points_.key(s)`
finds: `rowCount(p)` first calls `P.rowCount(s)`, the very call it makes when
no submodel is attached, then calls `m.rowCount(QModelIndex())` and returns
that; `columnCount(p)` makes one call, `m.columnCount(QModelIndex())`, and
does not ask `P`. -/
theorem count_calls_at_merge_point (env : Env) (st : MergedProxyModel) (p s : QModelIndex)
    (m P : ModelId) (hp : p.isValid = true) (hs : mapToSource st p = s)
    (hP : s.model = some P) (hk : QMap.key st.merge_points_ s = some m) :
    rowCount_calls env st p =
        [ProviderCall.rowCount P s, ProviderCall.rowCount m QModelIndex.invalid] ∧
      rowCount_calls env { st with merge_points_ := [] } p = [ProviderCall.rowCount P s] ∧
      rowCount env st p = some (env.rowCount m QModelIndex.invalid) ∧
      columnCount_calls env st p = [ProviderCall.columnCount m QModelIndex.invalid] ∧
      columnCount env st p = some (env.columnCount m QModelIndex.invalid) := by
  have hs2 : mapToSource { st with merge_points_ := [] } p = s := hs
  have hk2 : QMap.key ([] : List (ModelId × QModelIndex)) s = none := rfl
  refine ⟨?_, ?_, ?_, ?_, ?_⟩
  · simp [rowCount_calls, hp, hs, hk, hP]
  · simp [rowCount_calls, hp, hs2, hk2, hP]
  · simp [rowCount, hp, hs, hk, hP]
  · simp [columnCount_calls, hp, hs, hk]
  · simp [columnCount, hp, hs, hk]

/-- In the scenario `rowCount(merged(A))` asks the source model at `A` and
then `M`; `columnCount(merged(A))` asks `M` only. -/
theorem count_calls_at_merge_point_witness :
    rowCount_calls Scenario.env Scenario.exposed Scenario.mergedA =
      [ProviderCall.rowCount 1 Scenario.A, ProviderCall.rowCount 2 QModelIndex.invalid] ∧
    columnCount_calls Scenario.env Scenario.exposed Scenario.mergedA =
      [ProviderCall.columnCount 2 QModelIndex.invalid] :=
  ⟨(count_calls_at_merge_point Scenario.env Scenario.exposed Scenario.mergedA Scenario.A 2 1
      (by decide) (by decide) (by decide) (by decide)).1,
    (count_calls_at_merge_point Scenario.env Scenario.exposed Scenario.mergedA Scenario.A 2 1
      (by decide) (by decide) (by decide) (by decide)).2.2.2.1⟩

/-- C19 as stated fails for `columnCount`.  In the scenario `merged(A)`
resolves to the merge point `A` of `M`, and the calls of
`columnCount(merged(A))` do not begin with, nor contain, the source model's
`columnCount(A)`. -/
theorem columnCount_no_probe :
    mapToSource Scenario.exposed Scenario.mergedA = Scenario.A ∧
    QMap.key Scenario.exposed.merge_points_ Scenario.A = some 2 ∧
    columnCount_calls Scenario.env Scenario.exposed Scenario.mergedA =
      [ProviderCall.columnCount 2 QModelIndex.invalid] ∧
    ProviderCall.columnCount 1 Scenario.A ∉
      columnCount_calls Scenario.env Scenario.exposed Scenario.mergedA ∧
    ¬ (∃ rest : List ProviderCall,
      columnCount_calls Scenario.env Scenario.exposed Scenario.mergedA =
        ProviderCall.columnCount 1 Scenario.A :: rest) := by
  refine ⟨by decide, by decide, by decide, by decide, ?_⟩
  rintro ⟨rest, h⟩
  have h2 : columnCount_calls Scenario.env Scenario.exposed Scenario.mergedA =
      [ProviderCall.columnCount 2 QModelIndex.invalid] := by decide
  rw [h2] at h
  have h3 := (List.cons.inj h).1
  exact absurd h3 (by decide)

/-! ### The frame of a submodel reset -/

/-- A mapping of the state `mapFromSource` leaves was there before or is the
one made for the source index. -/
theorem mapFromSource_mappings (env : Env) (st : MergedProxyModel) (c : QModelIndex) :
    ∀ mp ∈ (mapFromSource env st c).2.mappings_, mp ∈ st.mappings_ ∨ mp.source_index = c := by
  intro mp hmp
  by_cases hc : c.isValid = true
  · by_cases hr : c.model = st.resetting_model_
    · have : (mapFromSource env st c).2 = st := by simp [mapFromSource, hc, hr]
      rw [this] at hmp; exact Or.inl hmp
    · cases hf : findBySource st.mappings_ c with
      | none =>
        rw [mapFromSource_new env st c hc hr hf] at hmp
        rcases List.mem_append.mp hmp with h | h
        · exact Or.inl h
        · rw [List.mem_singleton] at h
          exact Or.inr (by rw [h])
      | some mp0 =>
        rw [mapFromSource_old env st c hc hr hf] at hmp
        exact Or.inl hmp
  · have : (mapFromSource env st c).2 = st := by simp [mapFromSource, hc]
    rw [this] at hmp; exact Or.inl hmp

/-- C20. The frame of `SubModelReset` for the submodel `m`, from a state
whose containers hold no duplicates.  Every mapping whose source index is
not of `m` is still in `mappings_`, and a valid proxy index with its address
resolves to its source index.  No mapping of `m` is left, and a mapping that
is there was there before or is the one of the source index `m` is attached
at.  When that source index is valid, of another model than `m` and not of a
model being reset, its proxy index resolves to it after the reset.
`merge_points_` is unchanged and `resetting_model_` is NULL. -/
theorem SubModelReset_frame (env : Env) (st : MergedProxyModel) (m : ModelId) (hwf : st.WF) :
    (∀ mp ∈ st.mappings_, mp.source_index.model ≠ some m →
      mp ∈ (SubModelReset env st m).mappings_) ∧
    (∀ mp ∈ st.mappings_, ∀ P : ModelId, mp.source_index.model = some P → P ≠ m →
      ∀ i : QModelIndex, i.isValid = true → i.internalPointer = mp.ptr →
        mapToSource (SubModelReset env st m) i = mp.source_index) ∧
    (∀ mp ∈ (SubModelReset env st m).mappings_, mp.source_index.model ≠ some m ∧
      (mp ∈ st.mappings_ ∨ mp.source_index = QMap.value st.merge_points_ (some m))) ∧
    (∀ (a : QModelIndex) (P : ModelId), QMap.value st.merge_points_ (some m) = a →
      a.isValid = true → a.model = some P → P ≠ m → a.model ≠ st.resetting_model_ →
      mapToSource (SubModelReset env st m) (mapFromSource env st a).1 = a) ∧
    (SubModelReset env st m).merge_points_ = st.merge_points_ ∧
    (SubModelReset env st m).resetting_model_ = none := by
  obtain ⟨hmaps, hguard, hmerge⟩ := SubModelReset_fields env st m
  obtain ⟨d, hst, hnd2⟩ := mapFromSource_state env st (QMap.value st.merge_points_ (some m))
  have hpar : (SubModelReset_parent env st m).2.mappings_ = st.mappings_ ++ d := by
    unfold SubModelReset_parent; rw [hst]
  have hndp : (pointers (SubModelReset_parent env st m).2.mappings_).Nodup := by
    rw [hpar]; exact hnd2 hwf.1
  have hnd : (pointers (SubModelReset env st m).mappings_).Nodup := by
    rw [hmaps]
    exact hndp.sublist ((List.filter_sublist _).map Mapping.ptr)
  have keep : ∀ mp ∈ (SubModelReset_parent env st m).2.mappings_,
      mp.source_index.model ≠ some m → mp ∈ (SubModelReset env st m).mappings_ := by
    intro mp hmp hne
    rw [hmaps, List.mem_filter]
    exact ⟨hmp, by simpa using hne⟩
  have old : ∀ mp ∈ st.mappings_, mp ∈ (SubModelReset_parent env st m).2.mappings_ := by
    intro mp hmp
    rw [hpar]; exact List.mem_append_left d hmp
  refine ⟨fun mp hmp hne => keep mp (old mp hmp) hne, ?_, ?_, ?_, ?_, hguard⟩
  · intro mp hmp P hP hPm i hi hptr
    have hne : mp.source_index.model ≠ some m := by
      rw [hP]; exact fun e => hPm (Option.some.inj e)
    exact mapToSource_unguarded _ P hnd hguard i hi mp (keep mp (old mp hmp) hne) hptr hP
  · intro mp hmp
    rw [hmaps, List.mem_filter] at hmp
    refine ⟨by simpa using hmp.2, ?_⟩
    exact mapFromSource_mappings env st (QMap.value st.merge_points_ (some m)) mp hmp.1
  · intro a P ha hav haP hPm har
    obtain ⟨mp, d2, heq, hfind, _, _⟩ := mapFromSource_valid env st a hav har
    obtain ⟨hmem, hsrc⟩ := findBySource_eq_some hfind
    have hmem2 : mp ∈ (SubModelReset_parent env st m).2.mappings_ := by
      unfold SubModelReset_parent; rw [ha, heq]; exact hmem
    have hne : mp.source_index.model ≠ some m := by
      rw [hsrc, haP]; exact fun e => hPm (Option.some.inj e)
    rw [heq]
    have := mapToSource_unguarded (SubModelReset env st m) P hnd hguard
      (createIndex env a.row a.column mp.ptr) (createIndex_isValid env a _ hav) mp
      (keep mp hmem2 hne) rfl (by rw [hsrc, haP])
    rw [this, hsrc]
  · rw [hmerge]
    exact mapFromSource_merge_points env st _

/-- In the scenario, the reset of `M` keeps the mapping of `A`, drops the one
of row 1 of `M`, leaves `merge_points_` as it is and the guard NULL, and
`merged(A)` still resolves to `A`. -/
theorem SubModelReset_frame_witness :
    (SubModelReset Scenario.env Scenario.exposed 2).mappings_ = [⟨1, Scenario.A⟩] ∧
    (SubModelReset Scenario.env Scenario.exposed 2).merge_points_ = [(2, Scenario.A)] ∧
    (SubModelReset Scenario.env Scenario.exposed 2).resetting_model_ = none ∧
    mapToSource (SubModelReset Scenario.env Scenario.exposed 2) Scenario.mergedA =
      Scenario.A :=
  ⟨by decide, by decide, by decide,
    (SubModelReset_frame Scenario.env Scenario.exposed 2 (by decide)).2.1 ⟨1, Scenario.A⟩
      (by decide) 1 (by decide) (by decide) Scenario.mergedA (by decide) (by decide)⟩

end MergedProxyModel

/-! ### Merge points that several submodels share -/

namespace QMap

/-- With ascending keys, the submodel with the lowest address among those
attached at `v` is the one `QMap::key` returns for `v`. -/
theorem key_of_least {mp : List (ModelId × QModelIndex)}
    (hs : (keys mp).Pairwise (fun a b => a < b)) {m : ModelId} {v : QModelIndex}
    (hmem : (m, v) ∈ mp) (hleast : ∀ k, (k, v) ∈ mp → m ≤ k) : key mp v = some m := by
  cases hk : key mp v with
  | none =>
    have := key_isSome_of_mem hmem
    rw [hk] at this
    cases this
  | some m0 =>
    have h1 : m0 ≤ m := key_least hs hk m hmem
    have h2 : m ≤ m0 := hleast m0 (key_eq_some hk)
    rw [Nat.le_antisymm h1 h2]

/-- When no submodel is attached at `v`, `QMap::key` returns NULL for `v`. -/
theorem key_of_not_mem {mp : List (ModelId × QModelIndex)} {v : QModelIndex}
    (h : ∀ k, (k, v) ∉ mp) : key mp v = none := by
  cases hk : key mp v with
  | none => rfl
  | some m0 => exact absurd (key_eq_some hk) (h m0)

end QMap

namespace MergedProxyModel

open MappingContainer

/-- C4, as the code has it.  `index` follows the splice rule.  For an invalid
parent the result is `mapFromSource` of the source model's
`index(row, column, QModelIndex())`.  For a valid parent that `mapToSource`
resolves to `s`: when submodels are registered at `s` (in a proxy whose
containers hold no duplicates), the result is `mapFromSource` of `m`'s
`index(row, column, QModelIndex())` for the registered submodel `m` with the
lowest address among those attached at `s`, which is the submodel attached
at `s` when there is only one; when no submodel is registered at `s`, it is
`mapFromSource` of `index(row, column, s)` of the model of `s`. -/
theorem index_splice (env : Env) (st : MergedProxyModel) (row column : Int)
    (parent : QModelIndex) :
    (parent.isValid = false →
      index env st row column parent =
        some (mapFromSource env st
          (env.index env.sourceModel row column QModelIndex.invalid))) ∧
    (∀ (s : QModelIndex) (m : ModelId), st.WF → parent.isValid = true →
      mapToSource st parent = s → (m, s) ∈ st.merge_points_ →
      (∀ e ∈ st.merge_points_, e.2 = s → m ≤ e.1) →
      index env st row column parent =
        some (mapFromSource env st (env.index m row column QModelIndex.invalid))) ∧
    (∀ (s : QModelIndex) (P : ModelId), parent.isValid = true → mapToSource st parent = s →
      (∀ e ∈ st.merge_points_, e.2 ≠ s) → s.model = some P →
      index env st row column parent =
        some (mapFromSource env st (env.index P row column s))) :=
  ⟨(index_of_key env st row column parent).1,
    fun s m hwf hp hs hmem hleast =>
      (index_of_key env st row column parent).2.1 s m hp hs
        (QMap.key_of_least hwf.2.2 hmem (fun k hk => hleast (k, s) hk rfl)),
    fun s P hp hs hnone hP =>
      (index_of_key env st row column parent).2.2 s P hp hs (QMap.key_of_not_mem (fun k hk => hnone (k, s) hk rfl)) hP⟩

/-- In the scenario: with `M` alone attached at `A`, `index(1, 0, merged(A))`
is the proxy index made for row 1 of `M`; with the submodels 2 and 3 both
attached at `A`, it is the proxy index of row 1 of submodel 2, the lower
address. -/
theorem index_splice_witness :
    index Scenario.env (mapFromSource Scenario.env Scenario.attached Scenario.A).2 1 0
      Scenario.mergedA = some (Scenario.mergedM1, Scenario.exposed) ∧
    index Scenario.env (mapFromSource Scenario.env Scenario.attached Scenario.A).2 1 0
      Scenario.mergedA =
      some (mapFromSource Scenario.env (mapFromSource Scenario.env Scenario.attached Scenario.A).2
        (Scenario.env.index 2 1 0 QModelIndex.invalid)) ∧
    index Scenario.env Scenario.twiceExposed 1 0 Scenario.mergedA =
      some (mapFromSource Scenario.env Scenario.twiceExposed
        (Scenario.env.index 2 1 0 QModelIndex.invalid)) :=
  ⟨by decide,
    (index_splice Scenario.env (mapFromSource Scenario.env Scenario.attached Scenario.A).2 1 0
      Scenario.mergedA).2.1 Scenario.A 2 (by decide) (by decide) (by decide) (by decide)
      (by decide),
    (index_splice Scenario.env Scenario.twiceExposed 1 0 Scenario.mergedA).2.1 Scenario.A 2
      (by decide) (by decide) (by decide) (by decide) (by decide)⟩

/-- C4 as stated fails.  With the submodels 2 and 3 both registered at `A`,
`merged(A)` resolves to `A`, the attach coordinate of the registered
submodel 3, and `index(1, 0, merged(A))` is not `mapFromSource` of submodel
3's `index(1, 0, QModelIndex())` (the invalid index): it is the proxy index
of row 1 of submodel 2. -/
theorem index_splice_shared :
    Scenario.twiceExposed.WF ∧
    Scenario.mergedA.isValid = true ∧
    mapToSource Scenario.twiceExposed Scenario.mergedA = Scenario.A ∧
    (3, Scenario.A) ∈ Scenario.twiceExposed.merge_points_ ∧
    index Scenario.env Scenario.twiceExposed 1 0 Scenario.mergedA ≠
      some (mapFromSource Scenario.env Scenario.twiceExposed
        (Scenario.env.index 3 1 0 QModelIndex.invalid)) ∧
    (index Scenario.env Scenario.twiceExposed 1 0 Scenario.mergedA).map Prod.fst =
      some ⟨1, 0, 2, some 100⟩ ∧
    (mapFromSource Scenario.env Scenario.twiceExposed
      (Scenario.env.index 3 1 0 QModelIndex.invalid)).1 = QModelIndex.invalid := by
  decide

/-- C5, as the code has it.  `rowCount` and `columnCount`.  For an invalid
index they are the source model's counts at `QModelIndex()`.  For a valid
index that resolves to a valid source index `s`: when submodels are
registered at `s` (in a proxy whose containers hold no duplicates), they are
the counts at `QModelIndex()` of the registered submodel `m` with the lowest
address among those attached at `s` (the submodel attached at `s` when
there is only one), and the counts of the model of `s` at `s` do not enter
the result; when no submodel is registered at `s`, they are the counts at
`s` of the model of `s`. -/
theorem rowCount_columnCount (env : Env) (st : MergedProxyModel) (p : QModelIndex) :
    (p.isValid = false →
      rowCount env st p = some (env.rowCount env.sourceModel QModelIndex.invalid) ∧
      columnCount env st p = some (env.columnCount env.sourceModel QModelIndex.invalid)) ∧
    (∀ (s : QModelIndex) (m : ModelId), st.WF → p.isValid = true → mapToSource st p = s →
      s.isValid = true → (m, s) ∈ st.merge_points_ →
      (∀ e ∈ st.merge_points_, e.2 = s → m ≤ e.1) →
      rowCount env st p = some (env.rowCount m QModelIndex.invalid) ∧
      columnCount env st p = some (env.columnCount m QModelIndex.invalid)) ∧
    (∀ (s : QModelIndex) (P : ModelId), p.isValid = true → mapToSource st p = s →
      (∀ e ∈ st.merge_points_, e.2 ≠ s) → s.model = some P →
      rowCount env st p = some (env.rowCount P s) ∧
      columnCount env st p = some (env.columnCount P s)) :=
  ⟨(counts_of_key env st p).1,
    fun s m hwf hp hs hsv hmem hleast =>
      (counts_of_key env st p).2.1 s m hp hs hsv (QMap.key_of_least hwf.2.2 hmem (fun k hk => hleast (k, s) hk rfl)),
    fun s P hp hs hnone hP =>
      (counts_of_key env st p).2.2 s P hp hs (QMap.key_of_not_mem (fun k hk => hnone (k, s) hk rfl)) hP⟩

/-- In the scenario the root item `A` has no rows of its own, and
`rowCount(merged(A))` is 3, the number of rows of `M`. -/
theorem rowCount_columnCount_witness :
    Scenario.env.rowCount 1 Scenario.A = 0 ∧
    rowCount Scenario.env Scenario.exposed Scenario.mergedA = some 3 ∧
    (rowCount Scenario.env Scenario.exposed Scenario.mergedA =
        some (Scenario.env.rowCount 2 QModelIndex.invalid) ∧
      columnCount Scenario.env Scenario.exposed Scenario.mergedA =
        some (Scenario.env.columnCount 2 QModelIndex.invalid)) :=
  ⟨by decide, by decide,
    (rowCount_columnCount Scenario.env Scenario.exposed Scenario.mergedA).2.1 Scenario.A 2
      (by decide) (by decide) (by decide) (by decide) (by decide) (by decide)⟩

/-- C5 as stated fails.  With the submodels 2 and 3 both registered at `A`,
`merged(A)` resolves to `A`, the attach coordinate of the registered
submodel 3, whose row count at its root is 0; `rowCount(merged(A))` is 3,
the row count of submodel 2. -/
theorem rowCount_shared :
    Scenario.twiceExposed.WF ∧
    Scenario.mergedA.isValid = true ∧
    mapToSource Scenario.twiceExposed Scenario.mergedA = Scenario.A ∧
    (3, Scenario.A) ∈ Scenario.twiceExposed.merge_points_ ∧
    Scenario.env.rowCount 3 QModelIndex.invalid = 0 ∧
    rowCount Scenario.env Scenario.twiceExposed Scenario.mergedA = some 3 ∧
    rowCount Scenario.env Scenario.twiceExposed Scenario.mergedA ≠
      some (Scenario.env.rowCount 3 QModelIndex.invalid) := by
  decide

/-- C6, as the code has it.  `hasChildren` at a merge point.  Let the valid
index `p` resolve to `s`, a source index of the model `P` (the source model,
for a merge point in the source model), in a proxy whose containers hold no
duplicates, and let `m` be the registered submodel with the lowest address
among those attached at `s` (the submodel attached at `s` when there is
only one).  Then `hasChildren(p)` is true exactly when `m` reports children
at `QModelIndex()` or `P` reports children at `s`; so it is true when `m`
reports children, also when `P` reports none at `s`. -/
theorem hasChildren_merge_point (env : Env) (st : MergedProxyModel) (p s : QModelIndex)
    (m P : ModelId) (hwf : st.WF) (hp : p.isValid = true) (hs : mapToSource st p = s)
    (hP : s.model = some P) (hmem : (m, s) ∈ st.merge_points_)
    (hleast : ∀ e ∈ st.merge_points_, e.2 = s → m ≤ e.1) :
    hasChildren env st p =
        some (env.hasChildren m QModelIndex.invalid || env.hasChildren P s) ∧
      (hasChildren env st p = some true ↔
        (env.hasChildren m QModelIndex.invalid = true ∨ env.hasChildren P s = true)) ∧
      (env.hasChildren m QModelIndex.invalid = true → env.hasChildren P s = false →
        hasChildren env st p = some true) :=
  hasChildren_of_key env st p s m P hp hs hP (QMap.key_of_least hwf.2.2 hmem (fun k hk => hleast (k, s) hk rfl))

/-- In the scenario `A` has no children in the source model, `M` has rows, and
`hasChildren(merged(A))` is true. -/
theorem hasChildren_merge_point_witness :
    Scenario.env.hasChildren 1 Scenario.A = false ∧
    Scenario.env.hasChildren 2 QModelIndex.invalid = true ∧
    hasChildren Scenario.env Scenario.exposed Scenario.mergedA = some true :=
  ⟨by decide, by decide,
    (hasChildren_merge_point Scenario.env Scenario.exposed Scenario.mergedA Scenario.A 2 1
      (by decide) (by decide) (by decide) (by decide) (by decide) (by decide)).2.2
      (by decide) (by decide)⟩

/-- C6 as stated fails.  With the submodels 2 and 3 both registered at `A`,
`merged(A)` resolves to `A`, the attach coordinate of the registered
submodel 3; neither submodel 3 at its root nor the source model at `A`
reports children, and `hasChildren(merged(A))` is true (submodel 2 has
rows). -/
theorem hasChildren_shared :
    Scenario.twiceExposed.WF ∧
    Scenario.mergedA.isValid = true ∧
    mapToSource Scenario.twiceExposed Scenario.mergedA = Scenario.A ∧
    (3, Scenario.A) ∈ Scenario.twiceExposed.merge_points_ ∧
    Scenario.env.hasChildren 3 QModelIndex.invalid = false ∧
    Scenario.env.hasChildren 1 Scenario.A = false ∧
    hasChildren Scenario.env Scenario.twiceExposed Scenario.mergedA = some true ∧
    ¬ (hasChildren Scenario.env Scenario.twiceExposed Scenario.mergedA = some true ↔
      (Scenario.env.hasChildren 3 QModelIndex.invalid = true ∨
        Scenario.env.hasChildren 1 Scenario.A = true)) := by
  decide

/-- C11 as stated fails.  The source model (1) announces a row, the submodel
`M` (2) is reset before the source model completes its insertion, and the
source model completes it: each provider keeps the bracket protocol for
itself (both end with no change pending), and the proxy opens the remove
bracket of the reset inside the open insert bracket, so what it emits is
not well-bracketed. -/
theorem relay_interleaved :
    (perProviderRun 1 (fun _ => Pending.idle)
        [SlotCall.RowsAboutToBeInserted 1 QModelIndex.invalid 1 1,
          SlotCall.SubModelReset 2,
          SlotCall.RowsInserted 1 QModelIndex.invalid 1 1]).map (fun f => (f 1, f 2)) =
      some (Pending.idle, Pending.idle) ∧
    (runSlots Scenario.exposed
      [(Scenario.env, SlotCall.RowsAboutToBeInserted 1 QModelIndex.invalid 1 1),
        (Scenario.env, SlotCall.SubModelReset 2),
        (Scenario.env, SlotCall.RowsInserted 1 QModelIndex.invalid 1 1)]).emitted =
      [Notification.beginInsertRows QModelIndex.invalid 1 1,
        Notification.beginRemoveRows Scenario.mergedA 0 2147483646,
        Notification.endRemoveRows,
        Notification.beginInsertRows Scenario.mergedA 0 2,
        Notification.endInsertRows,
        Notification.SubModelReset Scenario.mergedA 2,
        Notification.endInsertRows] ∧
    bracketRun Pending.idle (runSlots Scenario.exposed
      [(Scenario.env, SlotCall.RowsAboutToBeInserted 1 QModelIndex.invalid 1 1),
        (Scenario.env, SlotCall.SubModelReset 2),
        (Scenario.env, SlotCall.RowsInserted 1 QModelIndex.invalid 1 1)]).emitted = none := by
  decide

/-! ### Idempotence of `mapFromSource` over other calls -/

/-- An operation that is not a reset only appends mappings and leaves the
guard as it is. -/
theorem step_appends (env : Env) (st : MergedProxyModel) (op : Op)
    (h : op.invalidates = false) :
    ∃ d : List Mapping, (step env st op).mappings_ = st.mappings_ ++ d ∧
      (step env st op).resetting_model_ = st.resetting_model_ := by
  have viaMap : ∀ c : QModelIndex,
      ∃ d : List Mapping, (mapFromSource env st c).2.mappings_ = st.mappings_ ++ d ∧
        (mapFromSource env st c).2.resetting_model_ = st.resetting_model_ := by
    intro c
    obtain ⟨d, hst, _⟩ := mapFromSource_state env st c
    exact ⟨d, by rw [hst], by rw [hst]⟩
  cases op with
  | mapFromSource source_index => exact viaMap source_index
  | index row column parent =>
    simp only [step, index]
    cases index_source env st row column parent with
    | none => exact ⟨[], by simp, rfl⟩
    | some c => exact viaMap c
  | parent child =>
    simp only [step, MergedProxyModel.parent]
    split
    · exact viaMap _
    · split
      · exact viaMap _
      · exact viaMap _
  | AddSubModel source_parent submodel => exact ⟨[], by simp [step, AddSubModel], rfl⟩
  | slot call =>
    cases call with
    | RowsAboutToBeInserted sender source_parent start end_ => exact viaMap _
    | RowsInserted sender source_parent start end_ => exact ⟨[], by simp [step, slot, RowsInserted, emit], rfl⟩
    | RowsAboutToBeRemoved sender source_parent start end_ => exact viaMap _
    | RowsRemoved sender source_parent start end_ => exact ⟨[], by simp [step, slot, RowsRemoved, emit], rfl⟩
    | SubModelReset sender => simp [Op.invalidates] at h
    | SourceModelReset => simp [Op.invalidates] at h

theorem runOps_appends (ops : List (Env × Op)) (st : MergedProxyModel)
    (h : ∀ o ∈ ops, o.2.invalidates = false) :
    ∃ d : List Mapping, (runOps st ops).mappings_ = st.mappings_ ++ d ∧
      (runOps st ops).resetting_model_ = st.resetting_model_ := by
  induction ops generalizing st with
  | nil => exact ⟨[], by simp [runOps], rfl⟩
  | cons o rest ih =>
    obtain ⟨env, op⟩ := o
    obtain ⟨d1, hd1, hr1⟩ := step_appends env st op (h (env, op) (List.mem_cons_self _ _))
    obtain ⟨d2, hd2, hr2⟩ := ih (step env st op)
      (fun o ho => h o (List.mem_cons_of_mem _ ho))
    refine ⟨d1 ++ d2, ?_, ?_⟩
    · simp only [runOps]; rw [hd2, hd1, List.append_assoc]
    · simp only [runOps]; rw [hr2, hr1]

/-- C2. `mapFromSource` is idempotent until a reset.  After `mapFromSource(c)`
and then any sequence of operations without a reset (`mapFromSource`,
`index`, `parent`, `AddSubModel`, the row relay slots, with any providers),
a second `mapFromSource(c)` returns the same proxy index (pointer, row and
column) as the first and leaves the proxy as it finds it. -/
theorem mapFromSource_idempotent (env : Env) (st : MergedProxyModel) (c : QModelIndex)
    (ops : List (Env × Op)) (hops : ∀ o ∈ ops, o.2.invalidates = false) :
    mapFromSource env (runOps (mapFromSource env st c).2 ops) c =
      ((mapFromSource env st c).1, runOps (mapFromSource env st c).2 ops) := by
  have masked : ∀ S : MergedProxyModel, (c.isValid = false ∨ c.model = S.resetting_model_) →
      mapFromSource env S c = (QModelIndex.invalid, S) := by
    intro S hS
    rcases hS with hS | hS
    · simp [mapFromSource, hS]
    · by_cases hc : c.isValid = true
      · simp [mapFromSource, hc, hS]
      · simp [mapFromSource, hc]
  by_cases hm : c.isValid = false ∨ c.model = st.resetting_model_
  · rw [masked st hm]
    obtain ⟨D, _, hres⟩ := runOps_appends ops st hops
    have hm2 : c.isValid = false ∨ c.model = (runOps st ops).resetting_model_ := by
      rw [hres]; exact hm
    exact masked (runOps st ops) hm2
  · have hc : c.isValid = true := by
      cases hv : c.isValid with
      | true => rfl
      | false => exact absurd (Or.inl hv) hm
    have hr : c.model ≠ st.resetting_model_ := fun e => hm (Or.inr e)
    obtain ⟨mp, d, heq, hfind, _, _⟩ := mapFromSource_valid env st c hc hr
    rw [heq]
    obtain ⟨D, hD, hres⟩ :=
      runOps_appends ops { st with mappings_ := st.mappings_ ++ d } hops
    have hr2 : c.model ≠
        (runOps { st with mappings_ := st.mappings_ ++ d } ops).resetting_model_ := by
      rw [hres]; exact hr
    have hf2 : findBySource
        (runOps { st with mappings_ := st.mappings_ ++ d } ops).mappings_ c = some mp := by
      rw [hD]; exact findBySource_append_of_some hfind D
    exact mapFromSource_old env (runOps { st with mappings_ := st.mappings_ ++ d } ops) c
      hc hr2 hf2

/-- In the scenario: `A` is handed out as `merged(A)`; then row 1 of `M` is
indexed, a second submodel is attached, row 2 of `M` is handed out, `M`
inserts a row and `parent` is asked; `mapFromSource(A)` is `merged(A)` again
and changes nothing. -/
theorem mapFromSource_idempotent_witness :
    (mapFromSource Scenario.env Scenario.attached Scenario.A).1 = Scenario.mergedA ∧
    (runOps (mapFromSource Scenario.env Scenario.attached Scenario.A).2
      [(Scenario.env, Op.index 1 0 Scenario.mergedA),
        (Scenario.env, Op.AddSubModel Scenario.A 3),
        (Scenario.env, Op.mapFromSource (Scenario.Mrow 2)),
        (Scenario.env, Op.slot (SlotCall.RowsAboutToBeInserted 2 QModelIndex.invalid 3 3)),
        (Scenario.env, Op.slot (SlotCall.RowsInserted 2 QModelIndex.invalid 3 3)),
        (Scenario.env, Op.parent Scenario.mergedM1)]).mappings_ =
      [⟨1, Scenario.A⟩, ⟨2, Scenario.Mrow 1⟩, ⟨3, Scenario.Mrow 2⟩] ∧
    mapFromSource Scenario.env
      (runOps (mapFromSource Scenario.env Scenario.attached Scenario.A).2
        [(Scenario.env, Op.index 1 0 Scenario.mergedA),
          (Scenario.env, Op.AddSubModel Scenario.A 3),
          (Scenario.env, Op.mapFromSource (Scenario.Mrow 2)),
          (Scenario.env, Op.slot (SlotCall.RowsAboutToBeInserted 2 QModelIndex.invalid 3 3)),
          (Scenario.env, Op.slot (SlotCall.RowsInserted 2 QModelIndex.invalid 3 3)),
          (Scenario.env, Op.parent Scenario.mergedM1)]) Scenario.A =
      ((mapFromSource Scenario.env Scenario.attached Scenario.A).1,
        runOps (mapFromSource Scenario.env Scenario.attached Scenario.A).2
          [(Scenario.env, Op.index 1 0 Scenario.mergedA),
            (Scenario.env, Op.AddSubModel Scenario.A 3),
            (Scenario.env, Op.mapFromSource (Scenario.Mrow 2)),
            (Scenario.env, Op.slot (SlotCall.RowsAboutToBeInserted 2 QModelIndex.invalid 3 3)),
            (Scenario.env, Op.slot (SlotCall.RowsInserted 2 QModelIndex.invalid 3 3)),
            (Scenario.env, Op.parent Scenario.mergedM1)]) :=
  ⟨by decide, by decide,
    mapFromSource_idempotent Scenario.env Scenario.attached Scenario.A _ (by decide)⟩

end MergedProxyModel

end Clementine
